import Mathlib

/-!
# Chat server (`server_grp.cpp`): session registry, group registry, message routing

A shallow embedding of `src/server_grp.cpp`.

* `std::string` is a Lean `String` (a sequence of characters).
* `std::unordered_set<int>` is `USet`: a duplicate-free list of handles; the list
  order is the (unspecified) iteration order, so a statement quantified over every
  `USet` covers every iteration order.
* `std::unordered_map<K, V>` is `UMap K V`: a list of entries with pairwise distinct
  keys, again in iteration order.
* The process state is `World`: the three global maps of the program together with
  the log of `send` calls and the log of `close` calls, both in program order.
* A function of the program is a Lean function from `World` to `World`; a function
  that can throw (`clients.at`) returns `Option World`.
* The state functions run every function body as one sequential step. The mutexes are
  modelled apart from the state, as the sequence of mutex operations of each function
  (section "Locks"), with an interleaving semantics for the threads.
* An input stream is `IStream`, the characters left and the two state flags that decide
  whether `getline` succeeds.
-/

namespace ChatServer

/-! ## Strings -/

/-- Membership in the character set `" \t\r\n"` used by `trim`. -/
def isTrimChar (c : Char) : Bool :=
  c == ' ' || c == '\t' || c == '\r' || c == '\n'

/-- The value `string::npos`, the largest `size_t`. -/
def npos : Nat := 2 ^ 64 - 1

/-- Index of the first character that is not in `" \t\r\n"`, on a character list. -/
def firstNotOf : List Char → Option Nat
  | [] => none
  | c :: cs => if isTrimChar c then (firstNotOf cs).map (· + 1) else some 0

/-- Index of the last character that is not in `" \t\r\n"`, on a character list. -/
def lastNotOf : List Char → Option Nat
  | [] => none
  | c :: cs =>
    match lastNotOf cs with
    | some i => some (i + 1)
    | none => if isTrimChar c then none else some 0

/-- The call `s.find_first_not_of(" \t\r\n")`; `none` stands for `string::npos`. -/
def find_first_not_of (s : String) : Option Nat := firstNotOf s.data

/-- The call `s.find_last_not_of(" \t\r\n")`; `none` stands for `string::npos`. -/
def find_last_not_of (s : String) : Option Nat := lastNotOf s.data

/-- The call `s.substr(pos, n)` for `pos ≤ s.size()`: at most `n` characters from `pos` on. -/
def substr (s : String) (pos : Nat) (n : Nat) : String :=
  ⟨(s.data.drop pos).take n⟩

/-- The call `s.substr(pos)` for `pos ≤ s.size()`: the characters from `pos` on. -/
def substrFrom (s : String) (pos : Nat) : String :=
  ⟨s.data.drop pos⟩

/-- Helper `trim` of the program (lines 23-29). -/
def trim (s : String) : String :=
  match find_first_not_of s with
  | none => ""
  | some start =>
    match find_last_not_of s with
    | some end_ => substr s start (end_ - start + 1)
    | none => substr s start ((npos - start + 1) % 2 ^ 64)

/-! ## Containers -/

/-- A `std::unordered_set<int>`: its elements in iteration order, without repetition. -/
structure USet where
  elems : List Int
  nodup : elems.Nodup
deriving DecidableEq

namespace USet

/-- The empty set (the value a default-constructed set has). -/
def empty : USet := ⟨[], List.nodup_nil⟩

instance : Inhabited USet := ⟨empty⟩

/-- The call `s.count(x)`. -/
def count (s : USet) (x : Int) : Nat := s.elems.count x

/-- The call `s.insert(x)`: no effect when `x` is present. -/
def insert (s : USet) (x : Int) : USet :=
  if h : x ∈ s.elems then s
  else ⟨s.elems ++ [x], List.Nodup.append s.nodup (List.nodup_singleton x)
    (by
      intro a ha hb
      rw [List.mem_singleton] at hb
      exact h (hb ▸ ha))⟩

/-- The call `s.erase(x)`: no effect when `x` is absent. -/
def erase (s : USet) (x : Int) : USet :=
  ⟨s.elems.filter (fun y => y ≠ x), s.nodup.filter _⟩

end USet

/-- A `std::unordered_map<K, V>`: its entries in iteration order, with distinct keys. -/
structure UMap (κ : Type) (ν : Type) where
  entries : List (κ × ν)
  nodup : (entries.map Prod.fst).Nodup
deriving DecidableEq

namespace UMap

variable {κ ν : Type}

/-- The empty map. -/
def empty : UMap κ ν := ⟨[], List.nodup_nil⟩

/-- The keys in iteration order. -/
def keys (m : UMap κ ν) : List κ := m.entries.map Prod.fst

/-- The call `m.count(k)`. -/
def count [DecidableEq κ] (m : UMap κ ν) (k : κ) : Nat := m.keys.count k

/-- The call `m.at(k)`: the value stored at `k`; `none` when the call throws
`std::out_of_range` because `k` is absent. -/
def find? [DecidableEq κ] (m : UMap κ ν) (k : κ) : Option ν :=
  (m.entries.find? (fun e => e.1 = k)).map Prod.snd

/-- The expression `m[k]` read at a key known to be present (no entry is created); at an
absent key the default value `m[k]` would create. -/
def read [DecidableEq κ] [Inhabited ν] (m : UMap κ ν) (k : κ) : ν :=
  (m.find? k).getD default

/-- The statement `m[k] = f(m[k])`, where `m[k]` default-constructs the value when `k` is
absent: `clients[h] = name` is `subscript h (fun _ => name)` and `groups[g].insert(h)`
is `subscript g (fun s => s.insert h)`. -/
def subscript [DecidableEq κ] [Inhabited ν] (m : UMap κ ν) (k : κ) (f : ν → ν) : UMap κ ν :=
  if h : k ∈ m.entries.map Prod.fst then
    ⟨m.entries.map (fun e => if e.1 = k then (e.1, f e.2) else e), by
      have hfst : (Prod.fst ∘ fun e : κ × ν => if e.1 = k then (e.1, f e.2) else e) = Prod.fst := by
        funext e
        by_cases he : e.1 = k <;> simp [he]
      rw [List.map_map, hfst]
      exact m.nodup⟩
  else
    ⟨m.entries ++ [(k, f default)], by
      rw [List.map_append]
      refine List.Nodup.append m.nodup (List.nodup_singleton _) ?_
      intro a ha hb
      simp only [List.map_cons, List.map_nil, List.mem_singleton] at hb
      exact h (hb ▸ ha)⟩

/-- The call `m.erase(k)`: no effect when `k` is absent. -/
def erase [DecidableEq κ] (m : UMap κ ν) (k : κ) : UMap κ ν :=
  ⟨m.entries.filter (fun e => e.1 ≠ k), by
    have hkeys : (m.entries.filter (fun e => e.1 ≠ k)).map Prod.fst
        = (m.entries.map Prod.fst).filter (fun a => a ≠ k) := by
      rw [List.filter_map]
      rfl
    rw [hkeys]
    exact m.nodup.filter _⟩

/-- The loop `for (auto &e : m) e.second = f(e.second);`. -/
def mapValues (m : UMap κ ν) (f : ν → ν) : UMap κ ν :=
  ⟨m.entries.map (fun e => (e.1, f e.2)), by
    rw [List.map_map]
    exact m.nodup⟩

end UMap

/-! ## Process state -/

/-- The global state of the server (lines 32-34) and the trace of its socket calls. -/
structure World where
  /-- The map `clients`: socket to username. -/
  clients : UMap Int String
  /-- The map `users`: username to password. -/
  users : UMap String String
  /-- The map `groups`: group name to member sockets. -/
  groups : UMap String USet
  /-- The calls `send(socket, text)` made so far, oldest first. -/
  sent : List (Int × String)
  /-- The calls `close(socket)` made so far, oldest first. -/
  closed : List Int
deriving DecidableEq

/-- Function `send_message` (lines 56-58). -/
def send_message (w : World) (socket : Int) (message : String) : World :=
  { w with sent := w.sent ++ [(socket, message)] }

/-- Function `broadcast_message` (lines 60-67). -/
def broadcast_message (w : World) (message : String) (sender : Int) : World :=
  w.clients.entries.foldl
    (fun acc client => if client.1 ≠ sender then send_message acc client.1 message else acc) w

/-- The scan of `private_message` (lines 72-79): the first entry whose username is
`recipient` gets the line and ends the loop; the flag is `found`. -/
def private_message_scan (sender recipient message : String) :
    List (Int × String) → World → World × Bool
  | [], w => (w, false)
  | client :: rest, w =>
    if client.2 = recipient then
      (send_message w client.1 ("[Private] " ++ sender ++ ": " ++ message ++ "\n"), true)
    else private_message_scan sender recipient message rest w

/-- Function `private_message` (lines 70-83). -/
def private_message (w : World) (sender_socket : Int) (sender recipient message : String) :
    World :=
  let r := private_message_scan sender recipient message w.clients.entries w
  if !r.2 then send_message r.1 sender_socket ("User '" ++ recipient ++ "' not found\n")
  else r.1

/-- Function `create_group` (lines 85-98). -/
def create_group (w : World) (client_socket : Int) (group_name_input : String) : World :=
  let group_name := trim group_name_input
  if group_name = "" then
    send_message w client_socket "Group name cannot be empty or whitespace only.\n"
  else if w.groups.count group_name ≠ 0 then
    send_message w client_socket ("Group '" ++ group_name ++ "' already exists\n")
  else
    send_message
      { w with groups := w.groups.subscript group_name (fun s => s.insert client_socket) }
      client_socket ("Group '" ++ group_name ++ "' created & joined\n")

/-- Function `join_group` (lines 100-113). -/
def join_group (w : World) (client_socket : Int) (group_name_input : String) : World :=
  let group_name := trim group_name_input
  if group_name = "" then
    send_message w client_socket "Group name cannot be empty or whitespace only.\n"
  else if w.groups.count group_name = 0 then
    send_message w client_socket ("[Error] Group '" ++ group_name ++ "' doesn't exist\n")
  else
    send_message
      { w with groups := w.groups.subscript group_name (fun s => s.insert client_socket) }
      client_socket ("You joined the group '" ++ group_name ++ "'\n")

/-- Function `leave_group` (lines 115-128). -/
def leave_group (w : World) (client_socket : Int) (group_name_input : String) : World :=
  let group_name := trim group_name_input
  if group_name = "" then
    send_message w client_socket "Group name cannot be empty or whitespace only.\n"
  else if w.groups.count group_name = 0 ∨ (w.groups.read group_name).count client_socket = 0 then
    send_message w client_socket ("Not in group '" ++ group_name ++ "'\n")
  else
    send_message
      { w with groups := w.groups.subscript group_name (fun s => s.erase client_socket) }
      client_socket ("Left group '" ++ group_name ++ "'\n")

/-- Function `group_message` (lines 130-159); `none` when `clients.at` throws. -/
def group_message (w : World) (sender_socket : Int) (group_name_input message_input : String) :
    Option World :=
  let group_name := trim group_name_input
  let message := trim message_input
  if message = "" then
    some (send_message w sender_socket "Group message cannot be empty.\n")
  else if w.groups.count group_name = 0 then
    some (send_message w sender_socket ("Group '" ++ group_name ++ "' doesn't exist\n"))
  else if (w.groups.read group_name).count sender_socket = 0 then
    some (send_message w sender_socket ("You're not in group '" ++ group_name ++ "'\n"))
  else
    match w.clients.find? sender_socket with
    | none => none
    | some sender =>
      let formatted := "[Group " ++ group_name ++ "] " ++ sender ++ ": " ++ message ++ "\n"
      some ((w.groups.read group_name).elems.foldl
        (fun acc member => if member ≠ sender_socket then send_message acc member formatted
          else acc) w)

/-- The call `close(socket)`. -/
def close (w : World) (socket : Int) : World :=
  { w with closed := w.closed ++ [socket] }

/-- The outcome of one call `recv(client_socket, buffer, BUFFER_SIZE - 1, 0)`: the return
value and the content of `buffer` after the call. -/
structure Recv where
  bytes : Int
  buffer : String
deriving DecidableEq

/-- The expression `string(buffer, bytes)`: the first `bytes` characters of the buffer. -/
def Recv.text (r : Recv) : String := ⟨r.buffer.data.take r.bytes.toNat⟩

/-- The test `msg.rfind(pre, 0) == 0`: `msg` begins with `pre`. -/
def rfind0 (msg pre : String) : Bool := pre.data.isPrefixOf msg.data

/-- Index of the first `c` in a character list, counted from `pos` on. -/
def findFrom (c : Char) : List Char → Nat → Option Nat
  | [], _ => none
  | x :: xs, pos => if x = c then some pos else findFrom c xs (pos + 1)

/-- The call `s.find(c, pos)`; `none` stands for `string::npos`. -/
def find (s : String) (c : Char) (pos : Nat) : Option Nat := findFrom c (s.data.drop pos) pos

/-- The cleanup sequence of `handle_client` (lines 256-268). -/
def handle_client_cleanup (w : World) (client_socket : Int) (username : String) : World :=
  let w1 := { w with clients := w.clients.erase client_socket }
  let w2 := { w1 with groups := w1.groups.mapValues (fun s => s.erase client_socket) }
  let w3 := broadcast_message w2 ("** " ++ username ++ " left the chat server **\n") client_socket
  close w3 client_socket

/-- The command dispatch of `handle_client` (lines 210-253) on a non-empty trimmed line;
`none` when `group_message` throws. -/
def handle_client_command (w : World) (client_socket : Int) (username msg : String) :
    Option World :=
  if rfind0 msg "/broadcast " then
    let content := trim (substrFrom msg 11)
    some (broadcast_message w ("[All] " ++ username ++ ": " ++ content ++ "\n") client_socket)
  else if rfind0 msg "/msg " then
    match find msg ' ' 5 with
    | some space =>
      let recipient := trim (substr msg 5 (space - 5))
      let content := trim (substrFrom msg (space + 1))
      some (private_message w client_socket username recipient content)
    | none => some w
  else if rfind0 msg "/create_group " then
    some (create_group w client_socket (substrFrom msg 14))
  else if rfind0 msg "/join_group " then
    some (join_group w client_socket (substrFrom msg 12))
  else if rfind0 msg "/leave_group " then
    some (leave_group w client_socket (substrFrom msg 13))
  else if rfind0 msg "/group_msg " then
    match find msg ' ' 11 with
    | some space =>
      group_message w client_socket (substr msg 11 (space - 11)) (substrFrom msg (space + 1))
    | none => some w
  else if rfind0 msg "/help" then
    some (send_message w client_socket
      ("/broadcast <msg>\n" ++ "/msg <user> <msg>\n" ++ "/create_group <name>\n" ++
       "/join_group <name>\n" ++ "/leave_group <name>\n" ++ "/group_msg <group> <msg>\n" ++
       "/exit\n"))
  else
    some (send_message w client_socket
      "Unknown command or Error in the command. Use /help for commands\n")

/-- The command loop of `handle_client` followed by the cleanup (lines 199-268), run on
the outcomes of the successive `recv` calls. When the outcomes run out the thread is
blocked in `recv` and the state reached so far is returned. -/
def handle_client_loop (client_socket : Int) (username : String) :
    List Recv → World → Option World
  | [], w => some w
  | r :: rest, w =>
    if r.bytes ≤ 0 then some (handle_client_cleanup w client_socket username)
    else
      let msg := trim r.text
      if msg = "" then handle_client_loop client_socket username rest w
      else
        match handle_client_command w client_socket username msg with
        | none => none
        | some w1 => handle_client_loop client_socket username rest w1

/-- Function `handle_client` (lines 161-269), run on the outcomes of the successive `recv`
calls of the connection. When the outcomes run out the thread is blocked in `recv` and the
state reached so far is returned; `none` when an exception escapes. -/
def handle_client (w : World) (client_socket : Int) (inputs : List Recv) : Option World :=
  let w1 := send_message w client_socket "Username: "
  match inputs with
  | [] => some w1
  | r1 :: inputs1 =>
    if r1.bytes ≤ 0 then some (close w1 client_socket)
    else
      let username := trim r1.text
      let w2 := send_message w1 client_socket "Password: "
      match inputs1 with
      | [] => some w2
      | r2 :: inputs2 =>
        if r2.bytes ≤ 0 then some (close w2 client_socket)
        else
          let password := trim r2.text
          if w2.users.count username = 0 ∨ w2.users.read username ≠ password then
            some (close (send_message w2 client_socket "Authentication failed\n") client_socket)
          else
            let w3 := { w2 with clients := w2.clients.subscript client_socket (fun _ => username) }
            let w4 := send_message w3 client_socket
              ("\nWelcome to the Chat Server!\n" ++ "(use /help for commands)")
            let w5 := broadcast_message w4 ("*** " ++ username ++ " joined the chat ***\n")
              client_socket
            handle_client_loop client_socket username inputs2 w5

/-- One sequential step on the registries: a group command issued by a connection, or the
disconnect cleanup of a connection. -/
inductive Step where
  | create (h : Int) (name : String)
  | join (h : Int) (name : String)
  | leave (h : Int) (name : String)
  | message (h : Int) (name : String) (text : String)
  | disconnect (h : Int) (username : String)
deriving DecidableEq

/-- The effect of one step; `none` when `group_message` throws. -/
def step (w : World) : Step → Option World
  | .create h name => some (create_group w h name)
  | .join h name => some (join_group w h name)
  | .leave h name => some (leave_group w h name)
  | .message h name text => group_message w h name text
  | .disconnect h username => some (handle_client_cleanup w h username)

/-- The effect of a sequence of steps, first to last. -/
def run (w : World) : List Step → Option World
  | [] => some w
  | s :: rest => (step w s).bind (fun w1 => run w1 rest)

/-- How many times the text `t` was sent to the handle `h` in a list of sends. -/
def timesSent (d : List (Int × String)) (h : Int) (t : String) : Nat :=
  d.countP (fun p => p.1 = h ∧ p.2 = t)

/-- A small state used to instantiate the statements below: three sessions, two
credential entries and one group. -/
def sampleWorld : World :=
  { clients := ⟨[(4, "alice"), (5, "bob"), (6, "carol")], by decide⟩
    users := ⟨[("alice", "pw1"), ("bob", "pw2")], by decide⟩
    groups := ⟨[("g", ⟨[4, 5], by decide⟩)], by decide⟩
    sent := []
    closed := [] }

/-- One step on the session registry: the statement `clients[h] = username` (line 190) or
the statement `clients.erase(h)` (line 259). -/
inductive RegStep where
  | register (h : Int) (username : String)
  | unregister (h : Int)
deriving DecidableEq

/-- The handle a registry step is about. -/
def RegStep.handle : RegStep → Int
  | .register h _ => h
  | .unregister h => h

/-- The effect of one registry step on `clients`. -/
def regStep (m : UMap Int String) : RegStep → UMap Int String
  | .register h username => m.subscript h (fun _ => username)
  | .unregister h => m.erase h

/-- The effect of a sequence of registry steps, first to last. -/
def regRun (m : UMap Int String) (steps : List RegStep) : UMap Int String :=
  steps.foldl regStep m

/-- The last step of a sequence that is about the handle `h`, if there is one. -/
def lastStepOf (steps : List RegStep) (h : Int) : Option RegStep :=
  steps.reverse.find? (fun s => s.handle = h)

/-- The binding a handle should have after a sequence of steps, in the words of the
registry contract: the username of its latest `register` when its last step is a
`register`, and none otherwise. -/
def expectedBinding (steps : List RegStep) (h : Int) : Option String :=
  match lastStepOf steps h with
  | some (.register _ username) => some username
  | _ => none

/-- State of an input stream (`ifstream`, `istringstream`): the characters not yet read and
the flags `eofbit` and `failbit`. -/
structure IStream where
  rest : List Char
  eofbit : Bool
  failbit : Bool
deriving DecidableEq

/-- The characters extracted by `getline` from the given input: those before the first
`delim`, and the input left after that `delim`; `none` when the end of the input is reached
without meeting `delim`. -/
def extractUntil (delim : Char) : List Char → List Char × Option (List Char)
  | [] => ([], none)
  | c :: cs =>
    if c = delim then ([], some cs)
    else ((c :: (extractUntil delim cs).1), (extractUntil delim cs).2)

/-- The call `getline(is, str, delim)`: the stream after the call and the new value of
`str`. On a stream that is not good the call sets `failbit` and leaves `str`; otherwise it
extracts up to and including `delim`, sets `eofbit` when the input ends first, and sets
`failbit` when it extracted nothing at all. The result converts to `true` when `failbit`
is clear. -/
def getline (is : IStream) (str : String) (delim : Char) : IStream × String :=
  if is.eofbit || is.failbit then ({ is with failbit := true }, str)
  else
    match extractUntil delim is.rest with
    | (s, some rest1) => ({ is with rest := rest1 }, ⟨s⟩)
    | (s, none) => ({ rest := [], eofbit := true, failbit := decide (s = []) }, ⟨s⟩)

/-- The body of the loop of `load_users` (lines 46-51) for one line of the file. -/
def load_users_line (w : World) (line : String) : World :=
  let iss : IStream := { rest := line.data, eofbit := false, failbit := false }
  let r1 := getline iss "" ':'
  if r1.1.failbit then w
  else
    let r2 := getline r1.1 "" '\n'
    if r2.1.failbit then w
    else { w with users := w.users.subscript (trim r1.2) (fun _ => trim r2.2) }

/-- The loop `while (getline(file, line)) ...` of `load_users` (lines 45-52), with a bound
on the number of iterations. -/
def load_users_loop : Nat → IStream → String → World → World
  | 0, _, _, w => w
  | fuel + 1, file, line, w =>
    if (getline file line '\n').1.failbit then w
    else
      load_users_loop fuel (getline file line '\n').1 (getline file line '\n').2
        (load_users_line w (getline file line '\n').2)

/-- Function `load_users` (lines 37-54) on the content of `users.txt`; `none` when the
file cannot be opened and the program exits. The loop runs at most once per character of
the file and twice more. -/
def load_users (w : World) (file : Option String) : Option World :=
  match file with
  | none => none
  | some content =>
    some (load_users_loop (content.data.length + 2)
      { rest := content.data, eofbit := false, failbit := false } "" w)

/-- The lines of a file content as the loop `while (getline(file, line))` reads them: the
pieces between line feeds, without a last empty piece. `cur` is the part of the current
line already passed. -/
def fileLinesFrom (cur : List Char) : List Char → List String
  | [] => if cur = [] then [] else [⟨cur⟩]
  | c :: cs => if c = '\n' then ⟨cur⟩ :: fileLinesFrom [] cs else fileLinesFrom (cur ++ [c]) cs

/-- The lines of a file content. -/
def fileLines (content : String) : List String := fileLinesFrom [] content.data

/-- The state at program start: the three maps are empty and no socket call was made. -/
def emptyWorld : World :=
  { clients := UMap.empty, users := UMap.empty, groups := UMap.empty, sent := [], closed := [] }

/-- The registration of `handle_client` after a successful handshake (lines 188-196). -/
def handle_client_register (w : World) (client_socket : Int) (username : String) : World :=
  let w3 := { w with clients := w.clients.subscript client_socket (fun _ => username) }
  let w4 := send_message w3 client_socket
    ("\nWelcome to the Chat Server!\n" ++ "(use /help for commands)")
  broadcast_message w4 ("*** " ++ username ++ " joined the chat ***\n") client_socket

/-- One event of the sequential model of the connections: the registration of a handle
after a successful handshake, a command line or a group command of a handle, or the
disconnect of a handle. -/
inductive Event where
  | login (h : Int) (username : String)
  | command (h : Int) (msg : String)
  | create (h : Int) (name : String)
  | join (h : Int) (name : String)
  | leave (h : Int) (name : String)
  | message (h : Int) (name : String) (text : String)
  | disconnect (h : Int)
deriving DecidableEq

/-- The events the model admits in a state: a handle issues commands and runs the cleanup
only while it is registered. -/
def enabled (w : World) : Event → Bool
  | .login _ _ => true
  | .command h _ => decide (h ∈ w.clients.keys)
  | .create h _ => decide (h ∈ w.clients.keys)
  | .join h _ => decide (h ∈ w.clients.keys)
  | .leave h _ => decide (h ∈ w.clients.keys)
  | .message h _ _ => decide (h ∈ w.clients.keys)
  | .disconnect h => decide (h ∈ w.clients.keys)

/-- The effect of an event; the variable `username` of the thread of a registered handle
is the name the handle is registered with. `none` when `group_message` throws. -/
def fire (w : World) : Event → Option World
  | .login h username => some (handle_client_register w h username)
  | .command h msg => handle_client_command w h (w.clients.read h) msg
  | .create h name => some (create_group w h name)
  | .join h name => some (join_group w h name)
  | .leave h name => some (leave_group w h name)
  | .message h name text => group_message w h name text
  | .disconnect h => some (handle_client_cleanup w h (w.clients.read h))

/-- The states of the sequential model: those reached from a state with no session and no
group by events admitted when they happen. -/
inductive Reach : World → Prop where
  | start (w : World) : w.clients = UMap.empty → w.groups = UMap.empty → Reach w
  | next (w w1 : World) (e : Event) : Reach w → enabled w e = true → fire w e = some w1 →
      Reach w1

/-- Every member of every group is a registered session. -/
def membersRegistered (w : World) : Prop :=
  ∀ g s, w.groups.find? g = some s → ∀ x ∈ s.elems, x ∈ w.clients.keys

/-! ## Locks

The mutex operations of each function, in program order: a `lock_guard` acquires its
mutex where it is declared and releases it at the end of its scope, guards of one scope in
reverse order of declaration. -/

/-- The two mutexes of the program (line 35). -/
inductive Mutex where
  | clients_mutex
  | groups_mutex
deriving DecidableEq

/-- One mutex operation of a thread. -/
inductive LockOp where
  | acquire (m : Mutex)
  | release (m : Mutex)
deriving DecidableEq

/-- Mutex operations of `broadcast_message` (guard on line 61). -/
def broadcast_message_locks : List LockOp :=
  [.acquire .clients_mutex, .release .clients_mutex]

/-- Mutex operations of `private_message` (guard on line 71). -/
def private_message_locks : List LockOp :=
  [.acquire .clients_mutex, .release .clients_mutex]

/-- Mutex operations of `create_group` (early return on line 89, guard on line 91). -/
def create_group_locks (group_name_input : String) : List LockOp :=
  if trim group_name_input = "" then []
  else [.acquire .groups_mutex, .release .groups_mutex]

/-- Mutex operations of `join_group` (early return on line 104, guard on line 106). -/
def join_group_locks (group_name_input : String) : List LockOp :=
  if trim group_name_input = "" then []
  else [.acquire .groups_mutex, .release .groups_mutex]

/-- Mutex operations of `leave_group` (early return on line 119, guard on line 121). -/
def leave_group_locks (group_name_input : String) : List LockOp :=
  if trim group_name_input = "" then []
  else [.acquire .groups_mutex, .release .groups_mutex]

/-- Mutex operations of `group_message` (early return on line 135, guards on lines 138 and
139, both released at every exit of the function, `c_lock` first). An exception that
escapes `clients.at` ends the whole process; the operations are those of a return. -/
def group_message_locks (message_input : String) : List LockOp :=
  if trim message_input = "" then []
  else [.acquire .groups_mutex, .acquire .clients_mutex,
        .release .clients_mutex, .release .groups_mutex]

/-- Mutex operations of the command dispatch of `handle_client` (lines 210-253). -/
def handle_client_command_locks (msg : String) : List LockOp :=
  if rfind0 msg "/broadcast " then broadcast_message_locks
  else if rfind0 msg "/msg " then
    match find msg ' ' 5 with
    | some _ => private_message_locks
    | none => []
  else if rfind0 msg "/create_group " then create_group_locks (substrFrom msg 14)
  else if rfind0 msg "/join_group " then join_group_locks (substrFrom msg 12)
  else if rfind0 msg "/leave_group " then leave_group_locks (substrFrom msg 13)
  else if rfind0 msg "/group_msg " then
    match find msg ' ' 11 with
    | some space => group_message_locks (substrFrom msg (space + 1))
    | none => []
  else []

/-- Mutex operations of the cleanup of `handle_client` (guards on lines 258 and 262, each
in a block of its own, then `broadcast_message`). -/
def handle_client_cleanup_locks : List LockOp :=
  [.acquire .clients_mutex, .release .clients_mutex,
   .acquire .groups_mutex, .release .groups_mutex] ++ broadcast_message_locks

/-- Mutex operations of the command loop and the cleanup of `handle_client` (lines
199-268) on the outcomes of the successive `recv` calls. -/
def handle_client_loop_locks : List Recv → List LockOp
  | [] => []
  | r :: rest =>
    if r.bytes ≤ 0 then handle_client_cleanup_locks
    else if trim r.text = "" then handle_client_loop_locks rest
    else handle_client_command_locks (trim r.text) ++ handle_client_loop_locks rest

/-- Mutex operations of `handle_client` (lines 161-269) on the outcomes of the successive
`recv` calls: none during the handshake, the guard of the block on lines 188-191, then
`broadcast_message`, the loop and the cleanup. -/
def handle_client_locks (users : UMap String String) (inputs : List Recv) : List LockOp :=
  match inputs with
  | [] => []
  | r1 :: inputs1 =>
    if r1.bytes ≤ 0 then []
    else
      match inputs1 with
      | [] => []
      | r2 :: inputs2 =>
        if r2.bytes ≤ 0 then []
        else if users.count (trim r1.text) = 0 ∨ users.read (trim r1.text) ≠ trim r2.text then []
        else
          [.acquire .clients_mutex, .release .clients_mutex] ++ broadcast_message_locks ++
            handle_client_loop_locks inputs2

/-- The mutexes a thread holds after the given operations, when it held `held` before. -/
def heldAfter (held : List Mutex) : List LockOp → List Mutex
  | [] => held
  | .acquire m :: rest => heldAfter (m :: held) rest
  | .release m :: rest => heldAfter (held.erase m) rest

/-- The lock discipline on the operations of a thread that holds `held`: a mutex is
acquired only when the thread does not hold it, `groups_mutex` is never acquired while
`clients_mutex` is held, a mutex is released only when held, and nothing is held at the
end. -/
def lockOrderOk : List Mutex → List LockOp → Bool
  | held, [] => decide (held = [])
  | held, .acquire m :: rest =>
    decide (m ∉ held) && decide (m = Mutex.groups_mutex → Mutex.clients_mutex ∉ held) &&
      lockOrderOk (m :: held) rest
  | held, .release m :: rest => decide (m ∈ held) && lockOrderOk (held.erase m) rest

/-- A thread of the server: the mutexes it holds and the operations it still has to do. -/
structure Thread where
  held : List Mutex
  rest : List LockOp
deriving DecidableEq

/-- The thread can do its next operation: a release always, an acquire when no thread
holds the mutex. -/
def Thread.canStep (threads : List Thread) (t : Thread) : Bool :=
  match t.rest with
  | [] => false
  | .release _ :: _ => true
  | .acquire m :: _ => threads.all (fun t1 => decide (m ∉ t1.held))

/-- The thread after its next operation. -/
def Thread.step (t : Thread) : Thread :=
  match t.rest with
  | [] => t
  | .acquire m :: rest => { held := m :: t.held, rest := rest }
  | .release m :: rest => { held := t.held.erase m, rest := rest }

/-- The threads after thread number `i` did its next operation; `none` when it cannot. -/
def stepAt (threads : List Thread) (i : Nat) : Option (List Thread) :=
  match threads.get? i with
  | none => none
  | some t => if t.canStep threads then some (threads.set i t.step) else none

/-- The threads after the interleaving given by `schedule`, the numbers of the threads
that step, in order; `none` when a scheduled thread cannot step. -/
def runSchedule (threads : List Thread) : List Nat → Option (List Thread)
  | [] => some threads
  | i :: schedule => (stepAt threads i).bind (fun threads1 => runSchedule threads1 schedule)

/-- Some thread has operations left and no thread can step. -/
def deadlocked (threads : List Thread) : Bool :=
  threads.any (fun t => decide (t.rest ≠ [])) && threads.all (fun t => !t.canStep threads)

/-- The threads of the given connections at their start, each holding nothing. -/
def startThreads (users : UMap String String) (connections : List (List Recv)) : List Thread :=
  connections.map (fun inputs => { held := [], rest := handle_client_locks users inputs })

/-- The next operation of thread `t` is the acquisition of a mutex that thread `t1` holds
(`t1` may be `t` itself). -/
def waitsFor (t t1 : Thread) : Bool :=
  match t.rest with
  | .acquire m :: _ => decide (m ∈ t1.held)
  | _ => false

/-! ## Lemmas on the containers -/

theorem USet.elem_count_ne_zero_iff (s : USet) (x : Int) : s.count x ≠ 0 ↔ x ∈ s.elems := by
  unfold USet.count
  rw [Nat.ne_zero_iff_zero_lt, List.count_pos_iff]

theorem UMap.key_count_ne_zero_iff {κ ν : Type} [DecidableEq κ] (m : UMap κ ν) (k : κ) :
    m.count k ≠ 0 ↔ k ∈ m.keys := by
  unfold UMap.count
  rw [Nat.ne_zero_iff_zero_lt, List.count_pos_iff]

theorem USet.mem_insert (s : USet) (h x : Int) :
    x ∈ (s.insert h).elems ↔ x ∈ s.elems ∨ x = h := by
  unfold USet.insert
  by_cases hm : h ∈ s.elems
  · rw [dif_pos hm]
    constructor
    · exact Or.inl
    · rintro (hx | hx)
      · exact hx
      · exact hx ▸ hm
  · rw [dif_neg hm]
    simp

theorem USet.insert_of_mem (s : USet) (h : Int) (hm : h ∈ s.elems) : s.insert h = s := by
  unfold USet.insert
  rw [dif_pos hm]

theorem USet.mem_erase (s : USet) (h x : Int) :
    x ∈ (s.erase h).elems ↔ x ∈ s.elems ∧ x ≠ h := by
  simp [USet.erase]

theorem USet.insert_empty (h : Int) : ((default : USet).insert h).elems = [h] := by
  show (USet.insert USet.empty h).elems = [h]
  simp [USet.insert, USet.empty]

namespace UMap

variable {κ ν : Type} [DecidableEq κ]

theorem find?_eq_some_iff (m : UMap κ ν) (k : κ) (v : ν) :
    m.find? k = some v ↔ (k, v) ∈ m.entries := by
  obtain ⟨l, hl⟩ := m
  simp only [find?]
  induction l with
  | nil => simp
  | cons e l ih =>
    rw [List.map_cons, List.nodup_cons] at hl
    have ih := ih hl.2
    by_cases he : e.1 = k
    · have hk : ∀ v', (k, v') ∉ l := fun v' hv =>
        hl.1 (he ▸ List.mem_map_of_mem Prod.fst hv)
      obtain ⟨a, b⟩ := e
      simp only at he
      subst he
      simp [List.find?_cons, hk, eq_comm]
    · have hne : (k, v) ≠ e := fun h => he (by rw [← h])
      simp only [List.find?_cons, he, decide_False, List.mem_cons, hne, false_or]
      exact ih

theorem find?_eq_none_iff (m : UMap κ ν) (k : κ) : m.find? k = none ↔ k ∉ m.keys := by
  simp only [find?, keys, Option.map_eq_none', List.find?_eq_none, List.mem_map, not_exists,
    not_and, decide_eq_true_eq]

theorem mem_keys_iff (m : UMap κ ν) (k : κ) : k ∈ m.keys ↔ ∃ v, m.find? k = some v := by
  rw [← not_iff_not, ← find?_eq_none_iff]
  cases m.find? k <;> simp

theorem count_eq_zero_iff (m : UMap κ ν) (k : κ) : m.count k = 0 ↔ k ∉ m.keys := by
  unfold UMap.count
  exact List.count_eq_zero

theorem read_of_find? [Inhabited ν] (m : UMap κ ν) (k : κ) (v : ν) (h : m.find? k = some v) :
    m.read k = v := by
  simp [read, h]

theorem read_of_not_mem [Inhabited ν] (m : UMap κ ν) (k : κ) (h : k ∉ m.keys) :
    m.read k = default := by
  simp [read, (find?_eq_none_iff m k).2 h]

theorem find?_subscript_self [Inhabited ν] (m : UMap κ ν) (k : κ) (f : ν → ν) :
    (m.subscript k f).find? k = some (f (m.read k)) := by
  unfold subscript
  by_cases h : k ∈ m.entries.map Prod.fst
  · rw [dif_pos h]
    obtain ⟨v, hv⟩ := (mem_keys_iff m k).1 h
    rw [read_of_find? m k v hv, find?_eq_some_iff]
    rw [find?_eq_some_iff] at hv
    simp only [List.mem_map]
    exact ⟨(k, v), hv, by simp⟩
  · rw [dif_neg h, read_of_not_mem m k h, find?_eq_some_iff]
    simp

theorem find?_subscript_ne [Inhabited ν] (m : UMap κ ν) (k g : κ) (f : ν → ν) (hg : g ≠ k) :
    (m.subscript k f).find? g = m.find? g := by
  have key : ∀ v, (m.subscript k f).find? g = some v ↔ m.find? g = some v := by
    intro v
    rw [find?_eq_some_iff, find?_eq_some_iff]
    unfold subscript
    by_cases h : k ∈ m.entries.map Prod.fst
    · rw [dif_pos h]
      simp only [List.mem_map]
      constructor
      · rintro ⟨e, he, heq⟩
        by_cases hek : e.1 = k
        · rw [if_pos hek] at heq
          exact absurd ((congrArg Prod.fst heq).symm.trans hek) hg
        · rw [if_neg hek] at heq
          exact heq ▸ he
      · intro hmem
        exact ⟨(g, v), hmem, by simp [hg]⟩
    · rw [dif_neg h]
      simp [hg]
  cases hx : m.find? g with
  | none =>
    cases hy : (m.subscript k f).find? g with
    | none => rfl
    | some v => rw [(key v).1 hy] at hx; cases hx
  | some v => exact (key v).2 hx

theorem mem_keys_subscript [Inhabited ν] (m : UMap κ ν) (k g : κ) (f : ν → ν) :
    g ∈ (m.subscript k f).keys ↔ g ∈ m.keys ∨ g = k := by
  by_cases hg : g = k
  · subst hg
    simp only [or_true, iff_true]
    exact (mem_keys_iff _ _).2 ⟨_, find?_subscript_self m g f⟩
  · rw [mem_keys_iff, mem_keys_iff, find?_subscript_ne m k g f hg]
    simp [hg]

end UMap

/-- The sends of a loop that sends `text` to every listed handle except `skip`. -/
theorem foldl_send_sent (text : String) (skip : Int) (l : List Int) (w : World) :
    l.foldl (fun acc h => if h ≠ skip then send_message acc h text else acc) w
      = { w with sent := w.sent ++ (l.filter (fun h => h ≠ skip)).map (fun h => (h, text)) } := by
  induction l generalizing w with
  | nil => simp
  | cons a l ih =>
    rw [List.foldl_cons, ih]
    by_cases h : a ≠ skip
    · simp [h, send_message]
    · simp [h]

theorem timesSent_append (d e : List (Int × String)) (h : Int) (t : String) :
    timesSent (d ++ e) h t = timesSent d h t + timesSent e h t := by
  simp [timesSent]

/-- How often a text reaches a handle in such a loop over a duplicate-free list. -/
theorem timesSent_loop (text : String) (skip : Int) (l : List Int) (hl : l.Nodup)
    (h : Int) (t : String) :
    timesSent ((l.filter (fun x => x ≠ skip)).map (fun x => (x, text))) h t
      = if h ∈ l ∧ h ≠ skip ∧ t = text then 1 else 0 := by
  induction l with
  | nil => simp [timesSent]
  | cons a l ih =>
    rw [List.nodup_cons] at hl
    have ih := ih hl.2
    by_cases ha : a = skip
    · have hf : (a :: l).filter (fun x => x ≠ skip) = l.filter (fun x => x ≠ skip) := by
        simp [List.filter_cons, ha]
      rw [hf, ih]
      by_cases hh : h = skip
      · simp [hh]
      · have hne : h ≠ a := fun e => hh (e.trans ha)
        simp [hne]
    · have hf : (a :: l).filter (fun x => x ≠ skip) = a :: l.filter (fun x => x ≠ skip) := by
        simp [List.filter_cons, ha]
      rw [hf, List.map_cons, ← List.singleton_append, timesSent_append, ih]
      by_cases hh : h = a
      · subst hh
        by_cases ht : t = text
        · simp [timesSent, ht, hl.1, ha]
        · simp [timesSent, ht, hl.1, ha, Ne.symm ht]
      · simp [timesSent, hh, Ne.symm hh]

theorem broadcast_message_eq (w : World) (message : String) (sender : Int) :
    broadcast_message w message sender
      = { w with sent := w.sent ++
            (w.clients.keys.filter (fun h => h ≠ sender)).map (fun h => (h, message)) } := by
  unfold broadcast_message UMap.keys
  have hfold : ∀ (l : List (Int × String)) (w0 : World),
      l.foldl (fun acc client => if client.1 ≠ sender then send_message acc client.1 message
        else acc) w0
      = (l.map Prod.fst).foldl (fun acc h => if h ≠ sender then send_message acc h message
        else acc) w0 := by
    intro l
    induction l with
    | nil => intro w0; rfl
    | cons a l ih => intro w0; simp only [List.foldl_cons, List.map_cons, ih]
  rw [hfold, foldl_send_sent]

theorem private_message_scan_not_found (sender recipient message : String)
    (l : List (Int × String)) (w : World) (h : ∀ e ∈ l, e.2 ≠ recipient) :
    private_message_scan sender recipient message l w = (w, false) := by
  induction l with
  | nil => rfl
  | cons e l ih =>
    rw [private_message_scan, if_neg (h e (List.mem_cons_self _ _))]
    exact ih (fun e' he' => h e' (List.mem_cons_of_mem _ he'))

theorem private_message_scan_found (sender recipient message : String)
    (l : List (Int × String)) (w : World) (h : ∃ e ∈ l, e.2 = recipient) :
    ∃ e ∈ l, e.2 = recipient ∧ private_message_scan sender recipient message l w
      = (send_message w e.1 ("[Private] " ++ sender ++ ": " ++ message ++ "\n"), true) := by
  induction l with
  | nil => simp at h
  | cons a l ih =>
    by_cases ha : a.2 = recipient
    · exact ⟨a, List.mem_cons_self _ _, ha, by rw [private_message_scan, if_pos ha]⟩
    · obtain ⟨e, he, her⟩ := h
      have hel : e ∈ l := by
        rcases List.mem_cons.1 he with h1 | h1
        · exact absurd (h1 ▸ her) ha
        · exact h1
      obtain ⟨e', he', her', hscan⟩ := ih ⟨e, hel, her⟩
      exact ⟨e', List.mem_cons_of_mem _ he', her', by
        rw [private_message_scan, if_neg ha]; exact hscan⟩

theorem UMap.count_ne_zero_of_find? {κ ν : Type} [DecidableEq κ] (m : UMap κ ν) (k : κ) (v : ν)
    (h : m.find? k = some v) : m.count k ≠ 0 :=
  (UMap.key_count_ne_zero_iff m k).2 ((UMap.mem_keys_iff m k).2 ⟨v, h⟩)

theorem USet.elem_count_eq_zero_iff (s : USet) (x : Int) : s.count x = 0 ↔ x ∉ s.elems := by
  unfold USet.count
  exact List.count_eq_zero

theorem UMap.keys_mapValues {κ ν : Type} (m : UMap κ ν) (f : ν → ν) :
    (m.mapValues f).keys = m.keys := by
  simp only [UMap.mapValues, UMap.keys, List.map_map]
  rfl

theorem UMap.find?_mapValues {κ ν : Type} [DecidableEq κ] (m : UMap κ ν) (f : ν → ν) (k : κ) :
    (m.mapValues f).find? k = (m.find? k).map f := by
  obtain ⟨l, hl⟩ := m
  simp only [UMap.mapValues, UMap.find?]
  clear hl
  induction l with
  | nil => rfl
  | cons e l ih =>
    by_cases he : e.1 = k
    · simp [List.find?_cons, he]
    · simp only [List.map_cons, List.find?_cons, he, decide_False]
      exact ih

theorem UMap.mem_keys_erase {κ ν : Type} [DecidableEq κ] (m : UMap κ ν) (k g : κ) :
    g ∈ (m.erase k).keys ↔ g ∈ m.keys ∧ g ≠ k := by
  simp only [UMap.erase, UMap.keys, List.mem_map, List.mem_filter, decide_eq_true_eq]
  constructor
  · rintro ⟨e, ⟨he, hk⟩, rfl⟩
    exact ⟨⟨e, he, rfl⟩, hk⟩
  · rintro ⟨⟨e, he, rfl⟩, hk⟩
    exact ⟨e, ⟨he, hk⟩, rfl⟩

theorem UMap.find?_erase_ne {κ ν : Type} [DecidableEq κ] (m : UMap κ ν) (k g : κ) (hg : g ≠ k) :
    (m.erase k).find? g = m.find? g := by
  have key : ∀ v, (m.erase k).find? g = some v ↔ m.find? g = some v := by
    intro v
    rw [UMap.find?_eq_some_iff, UMap.find?_eq_some_iff]
    simp [UMap.erase, hg]
  cases hx : m.find? g with
  | none =>
    cases hy : (m.erase k).find? g with
    | none => rfl
    | some v => rw [(key v).1 hy] at hx; cases hx
  | some v => exact (key v).2 hx

theorem UMap.find?_erase_self {κ ν : Type} [DecidableEq κ] (m : UMap κ ν) (k : κ) :
    (m.erase k).find? k = none := by
  rw [UMap.find?_eq_none_iff, UMap.mem_keys_erase]
  exact fun h => h.2 rfl

/-- What `create_group` does to `groups`. -/
theorem create_group_groups (w : World) (h : Int) (name : String) :
    (create_group w h name).groups
      = if trim name = "" ∨ trim name ∈ w.groups.keys then w.groups
        else w.groups.subscript (trim name) (fun s => s.insert h) := by
  by_cases hn : trim name = ""
  · simp only [create_group, hn, if_true, true_or]
    rfl
  · by_cases hex : trim name ∈ w.groups.keys
    · have hc : w.groups.count (trim name) ≠ 0 := (UMap.key_count_ne_zero_iff _ _).2 hex
      simp only [create_group, hn, hc, hex, if_false, if_true, ne_eq, not_false_eq_true,
        or_true]
      rfl
    · have hc : ¬ w.groups.count (trim name) ≠ 0 := fun hc =>
        hex ((UMap.key_count_ne_zero_iff _ _).1 hc)
      simp only [create_group, hn, hc, hex, if_false, or_self]
      rfl

/-- What `join_group` does to `groups` and to the log of sends. -/
theorem join_group_eq (w : World) (h : Int) (name : String) (hn : trim name ≠ "")
    (hex : trim name ∈ w.groups.keys) :
    join_group w h name
      = send_message
          { w with groups := w.groups.subscript (trim name) (fun s => s.insert h) }
          h ("You joined the group '" ++ trim name ++ "'\n") := by
  have hc : ¬ w.groups.count (trim name) = 0 := fun hc =>
    (UMap.count_eq_zero_iff _ _).1 hc hex
  simp only [join_group, hn, hc, if_false]

theorem join_group_groups (w : World) (h : Int) (name : String) :
    (join_group w h name).groups
      = if trim name = "" ∨ trim name ∉ w.groups.keys then w.groups
        else w.groups.subscript (trim name) (fun s => s.insert h) := by
  by_cases hn : trim name = ""
  · simp only [join_group, hn, if_true, true_or]
    rfl
  · by_cases hex : trim name ∈ w.groups.keys
    · rw [join_group_eq w h name hn hex]
      simp only [hn, hex, not_true_eq_false, or_self, if_false]
      rfl
    · have hc : w.groups.count (trim name) = 0 := (UMap.count_eq_zero_iff _ _).2 hex
      simp only [join_group, hn, hc, hex, if_false, if_true, not_false_eq_true, or_true]
      rfl

/-- What `leave_group` does to `groups`. -/
theorem leave_group_groups (w : World) (h : Int) (name : String) :
    (leave_group w h name).groups
      = if trim name = "" ∨ trim name ∉ w.groups.keys ∨ h ∉ (w.groups.read (trim name)).elems
        then w.groups
        else w.groups.subscript (trim name) (fun s => s.erase h) := by
  by_cases hn : trim name = ""
  · simp only [leave_group, hn, if_true, true_or]
    rfl
  · by_cases hc : w.groups.count (trim name) = 0 ∨ (w.groups.read (trim name)).count h = 0
    · have hc2 : trim name ∉ w.groups.keys ∨ h ∉ (w.groups.read (trim name)).elems := by
        rw [← UMap.count_eq_zero_iff, ← USet.elem_count_eq_zero_iff]
        exact hc
      simp only [leave_group, hn, hc, hc2, if_false, if_true, or_true]
      rfl
    · have hc2 : ¬ (trim name ∉ w.groups.keys ∨ h ∉ (w.groups.read (trim name)).elems) := by
        rw [← UMap.count_eq_zero_iff, ← USet.elem_count_eq_zero_iff]
        exact hc
      simp only [leave_group, hn, hc, hc2, if_false, or_self]
      rfl

/-- The function `group_message` never changes `clients` or `groups`. -/
theorem group_message_registries (w w1 : World) (h : Int) (name text : String)
    (hrun : group_message w h name text = some w1) :
    w1.clients = w.clients ∧ w1.groups = w.groups := by
  unfold group_message at hrun
  simp only at hrun
  split_ifs at hrun with h1 h2 h3
  · cases hrun; exact ⟨rfl, rfl⟩
  · cases hrun; exact ⟨rfl, rfl⟩
  · cases hrun; exact ⟨rfl, rfl⟩
  · cases hf : w.clients.find? h with
    | none => rw [hf] at hrun; cases hrun
    | some u =>
      rw [hf] at hrun
      simp only [foldl_send_sent, Option.some.injEq] at hrun
      subst hrun
      exact ⟨rfl, rfl⟩

/-- The cleanup sequence as one update of the state. -/
theorem handle_client_cleanup_eq (w : World) (h : Int) (u : String) :
    handle_client_cleanup w h u
      = { clients := w.clients.erase h
          users := w.users
          groups := w.groups.mapValues (fun s => s.erase h)
          sent := w.sent ++ ((w.clients.erase h).keys.filter (fun x => x ≠ h)).map
            (fun x => (x, "** " ++ u ++ " left the chat server **\n"))
          closed := w.closed ++ [h] } := by
  simp only [handle_client_cleanup, broadcast_message_eq, close]

/-- One step never removes a group name. -/
theorem step_keeps_group_names (w w1 : World) (s : Step) (hrun : step w s = some w1)
    (g : String) (hg : g ∈ w.groups.keys) : g ∈ w1.groups.keys := by
  cases s with
  | create h name =>
    simp only [step, Option.some.injEq] at hrun
    subst hrun
    rw [create_group_groups]
    split_ifs
    · exact hg
    · exact (UMap.mem_keys_subscript _ _ _ _).2 (Or.inl hg)
  | join h name =>
    simp only [step, Option.some.injEq] at hrun
    subst hrun
    rw [join_group_groups]
    split_ifs
    · exact hg
    · exact (UMap.mem_keys_subscript _ _ _ _).2 (Or.inl hg)
  | leave h name =>
    simp only [step, Option.some.injEq] at hrun
    subst hrun
    rw [leave_group_groups]
    split_ifs
    · exact hg
    · exact (UMap.mem_keys_subscript _ _ _ _).2 (Or.inl hg)
  | message h name text =>
    simp only [step] at hrun
    rw [(group_message_registries w w1 h name text hrun).2]
    exact hg
  | disconnect h u =>
    simp only [step, Option.some.injEq] at hrun
    subst hrun
    rw [handle_client_cleanup_eq]
    simp only [UMap.keys_mapValues]
    exact hg

/-- A run of steps never removes a group name. -/
theorem run_keeps_group_names (steps : List Step) (w w1 : World) (hrun : run w steps = some w1)
    (g : String) (hg : g ∈ w.groups.keys) : g ∈ w1.groups.keys := by
  induction steps generalizing w with
  | nil =>
    simp only [run, Option.some.injEq] at hrun
    exact hrun ▸ hg
  | cons s rest ih =>
    simp only [run] at hrun
    cases hs : step w s with
    | none => rw [hs] at hrun; cases hrun
    | some w2 =>
      rw [hs] at hrun
      exact ih w2 hrun (step_keeps_group_names w w2 s hs g hg)

theorem USet.erase_insert_twice_empty (h : Int) :
    ((((default : USet).insert h).insert h).erase h).elems = [] := by
  show (((USet.empty.insert h).insert h).erase h).elems = []
  simp [USet.insert, USet.erase, USet.empty]

theorem UMap.read_subscript_self {κ ν : Type} [DecidableEq κ] [Inhabited ν] (m : UMap κ ν)
    (k : κ) (f : ν → ν) : (m.subscript k f).read k = f (m.read k) :=
  UMap.read_of_find? _ _ _ (UMap.find?_subscript_self m k f)

theorem UMap.mem_keys_subscript_self {κ ν : Type} [DecidableEq κ] [Inhabited ν] (m : UMap κ ν)
    (k : κ) (f : ν → ν) : k ∈ (m.subscript k f).keys :=
  (UMap.mem_keys_subscript m k k f).2 (Or.inr rfl)

/-! ## Lemmas on `trim` -/

theorem firstNotOf_none_iff (l : List Char) :
    firstNotOf l = none ↔ ∀ c ∈ l, isTrimChar c = true := by
  induction l with
  | nil => simp [firstNotOf]
  | cons a l ih =>
    by_cases ha : isTrimChar a = true
    · simp [firstNotOf, ha, ih]
    · simp [firstNotOf, ha]

theorem lastNotOf_none_iff (l : List Char) :
    lastNotOf l = none ↔ ∀ c ∈ l, isTrimChar c = true := by
  induction l with
  | nil => simp [lastNotOf]
  | cons a l ih =>
    cases hl : lastNotOf l with
    | none =>
      have hall := ih.1 hl
      by_cases ha : isTrimChar a = true
      · simp only [lastNotOf, hl, ha, if_true, List.mem_cons, forall_eq_or_imp, true_and,
          true_iff]
        exact hall
      · simp [lastNotOf, hl, ha]
    | some j =>
      have hnot : ¬ ∀ c ∈ l, isTrimChar c = true := fun h => by
        rw [ih.2 h] at hl
        cases hl
      simp only [lastNotOf, hl, List.mem_cons, forall_eq_or_imp, false_iff, not_and]
      exact ⟨fun h => Option.noConfusion h, fun h => absurd h.2 hnot⟩

/-- At the index found by `firstNotOf` stands a character outside the set. -/
theorem firstNotOf_some (l : List Char) (i : Nat) (h : firstNotOf l = some i) :
    ∃ c rest, l.drop i = c :: rest ∧ isTrimChar c = false := by
  induction l generalizing i with
  | nil => simp [firstNotOf] at h
  | cons a l ih =>
    by_cases ha : isTrimChar a = true
    · simp only [firstNotOf, ha, if_true, Option.map_eq_some'] at h
      obtain ⟨k, hk, rfl⟩ := h
      simpa using ih k hk
    · have ha2 : isTrimChar a = false := by simpa using ha
      simp only [firstNotOf, ha2, Bool.false_eq_true, if_false, Option.some.injEq] at h
      subst h
      exact ⟨a, l, rfl, ha2⟩

/-- Up to the index found by `lastNotOf` the list ends with a character outside the set. -/
theorem lastNotOf_some (l : List Char) (j : Nat) (h : lastNotOf l = some j) :
    ∃ init c, l.take (j + 1) = init ++ [c] ∧ init.length = j ∧ isTrimChar c = false := by
  induction l generalizing j with
  | nil => simp [lastNotOf] at h
  | cons a l ih =>
    cases hl : lastNotOf l with
    | none =>
      by_cases ha : isTrimChar a = true
      · simp [lastNotOf, hl, ha] at h
      · have ha2 : isTrimChar a = false := by simpa using ha
        simp only [lastNotOf, hl, ha2, Bool.false_eq_true, if_false, Option.some.injEq] at h
        subst h
        exact ⟨[], a, by simp, rfl, ha2⟩
    | some k =>
      simp only [lastNotOf, hl, Option.some.injEq] at h
      subst h
      obtain ⟨init, c, h1, h2, h3⟩ := ih k hl
      exact ⟨a :: init, c, by simp [h1], by simp [h2], h3⟩

theorem firstNotOf_le_lastNotOf (l : List Char) (i j : Nat) (hi : firstNotOf l = some i)
    (hj : lastNotOf l = some j) : i ≤ j := by
  induction l generalizing i j with
  | nil => simp [firstNotOf] at hi
  | cons a l ih =>
    by_cases ha : isTrimChar a = true
    · simp only [firstNotOf, ha, if_true, Option.map_eq_some'] at hi
      obtain ⟨i1, hi1, rfl⟩ := hi
      cases hl : lastNotOf l with
      | none =>
        rw [(firstNotOf_none_iff l).2 ((lastNotOf_none_iff l).1 hl)] at hi1
        cases hi1
      | some j1 =>
        simp only [lastNotOf, hl, Option.some.injEq] at hj
        subst hj
        exact Nat.succ_le_succ (ih i1 j1 hi1 hl)
    · have ha2 : isTrimChar a = false := by simpa using ha
      simp only [firstNotOf, ha2, Bool.false_eq_true, if_false, Option.some.injEq] at hi
      subst hi
      exact Nat.zero_le _

theorem lastNotOf_concat (init : List Char) (c : Char) (hc : isTrimChar c = false) :
    lastNotOf (init ++ [c]) = some init.length := by
  induction init with
  | nil => simp [lastNotOf, hc]
  | cons a init ih => simp [lastNotOf, ih]

/-- The string `trim s` is empty exactly when `s` consists of characters of the set. -/
theorem trim_eq_empty_iff (s : String) :
    trim s = "" ↔ ∀ c ∈ s.data, isTrimChar c = true := by
  unfold trim find_first_not_of find_last_not_of
  cases hf : firstNotOf s.data with
  | none => simpa using (firstNotOf_none_iff s.data).1 hf
  | some i =>
    have hnot : ¬ ∀ c ∈ s.data, isTrimChar c = true := fun h => by
      rw [(firstNotOf_none_iff _).2 h] at hf
      cases hf
    cases hl : lastNotOf s.data with
    | none => exact absurd ((lastNotOf_none_iff _).1 hl) hnot
    | some j =>
      obtain ⟨c, rest, hd, _⟩ := firstNotOf_some _ i hf
      simp only [hnot, iff_false]
      intro h
      have := congrArg String.data h
      simp [substr, hd] at this

/-- A non-empty `trim s` begins and ends with a character outside the set. -/
theorem trim_ends (s : String) (hne : trim s ≠ "") :
    (∃ c rest, (trim s).data = c :: rest ∧ isTrimChar c = false) ∧
    (∃ init c, (trim s).data = init ++ [c] ∧ isTrimChar c = false) := by
  have hnot : ¬ ∀ c ∈ s.data, isTrimChar c = true := fun h => hne ((trim_eq_empty_iff s).2 h)
  unfold trim find_first_not_of find_last_not_of
  cases hf : firstNotOf s.data with
  | none => exact absurd ((firstNotOf_none_iff _).1 hf) hnot
  | some i =>
    cases hl : lastNotOf s.data with
    | none => exact absurd ((lastNotOf_none_iff _).1 hl) hnot
    | some j =>
      have hij := firstNotOf_le_lastNotOf _ i j hf hl
      obtain ⟨c, rest, hd, hc⟩ := firstNotOf_some _ i hf
      obtain ⟨init, c2, ht, hlen, hc2⟩ := lastNotOf_some _ j hl
      constructor
      · exact ⟨c, rest.take (j - i), by simp [substr, hd], hc⟩
      · refine ⟨init.drop i, c2, ?_, hc2⟩
        have h1 : (s.data.drop i).take (j - i + 1) = (s.data.take (j + 1)).drop i := by
          rw [List.drop_take]
          congr 1
          omega
        simp only [substr, h1, ht]
        exact List.drop_append_of_le_length (by omega)

/-- A string that begins and ends with a character outside the set is its own trim. -/
theorem trim_of_ends (l : List Char) (c : Char) (rest : List Char) (init : List Char) (c2 : Char)
    (h1 : l = c :: rest) (hc : isTrimChar c = false) (h2 : l = init ++ [c2])
    (hc2 : isTrimChar c2 = false) : trim ⟨l⟩ = ⟨l⟩ := by
  have hf : firstNotOf l = some 0 := by
    rw [h1]
    simp [firstNotOf, hc]
  have hl : lastNotOf l = some init.length := by
    rw [h2]
    exact lastNotOf_concat init c2 hc2
  have hlen : l.length = init.length + 1 := by
    rw [h2]
    simp
  simp only [trim, find_first_not_of, find_last_not_of, hf, hl, substr, List.drop_zero,
    Nat.sub_zero]
  rw [← hlen, List.take_length]

theorem trim_idem (s : String) : trim (trim s) = trim s := by
  by_cases hne : trim s = ""
  · rw [hne]
    decide
  · obtain ⟨⟨c, rest, h1, hc⟩, ⟨init, c2, h2, hc2⟩⟩ := trim_ends s hne
    exact trim_of_ends (trim s).data c rest init c2 h1 hc h2 hc2

/-- The characters of `trim s` are characters of `s`. -/
theorem mem_of_mem_trim (s : String) (c : Char) (h : c ∈ (trim s).data) : c ∈ s.data := by
  unfold trim find_first_not_of find_last_not_of at h
  cases hf : firstNotOf s.data with
  | none => simp [hf] at h
  | some i =>
    cases hl : lastNotOf s.data with
    | none =>
      simp only [hf, hl, substr] at h
      exact List.mem_of_mem_drop (List.mem_of_mem_take h)
    | some j =>
      simp only [hf, hl, substr] at h
      exact List.mem_of_mem_drop (List.mem_of_mem_take h)

/-! ## Lemmas on the session registry -/

theorem UMap.find?_empty {κ ν : Type} [DecidableEq κ] (k : κ) :
    (UMap.empty : UMap κ ν).find? k = none := rfl

theorem UMap.erase_of_not_mem {κ ν : Type} [DecidableEq κ] (m : UMap κ ν) (k : κ)
    (h : k ∉ m.keys) : m.erase k = m := by
  obtain ⟨l, hl⟩ := m
  simp only [UMap.erase, UMap.mk.injEq, List.filter_eq_self, decide_eq_true_eq]
  intro e he hek
  exact h (by
    simp only [UMap.keys, List.mem_map]
    exact ⟨e, he, hek⟩)

theorem lastStepOf_concat (steps : List RegStep) (s : RegStep) (h : Int) :
    lastStepOf (steps ++ [s]) h = if s.handle = h then some s else lastStepOf steps h := by
  simp only [lastStepOf, List.reverse_append, List.reverse_cons, List.reverse_nil,
    List.nil_append, List.singleton_append, List.find?_cons]
  by_cases hs : s.handle = h <;> simp [hs]

/-- The registry after a run of steps binds every handle as the contract expects. -/
theorem regRun_find? (steps : List RegStep) (h : Int) :
    (regRun UMap.empty steps).find? h = expectedBinding steps h := by
  induction steps using List.reverseRecOn with
  | nil => rfl
  | append_singleton steps s ih =>
    have hrun : regRun UMap.empty (steps ++ [s]) = regStep (regRun UMap.empty steps) s := by
      simp [regRun, List.foldl_append]
    rw [hrun]
    unfold expectedBinding at ih ⊢
    rw [lastStepOf_concat]
    cases s with
    | register h1 u1 =>
      by_cases hh : h1 = h
      · subst hh
        simp only [regStep, RegStep.handle, if_true]
        exact UMap.find?_subscript_self _ _ _
      · simp only [regStep, RegStep.handle, hh, if_false]
        rw [UMap.find?_subscript_ne _ _ _ _ (Ne.symm hh)]
        exact ih
    | unregister h1 =>
      by_cases hh : h1 = h
      · subst hh
        simp only [regStep, RegStep.handle, if_true]
        exact UMap.find?_erase_self _ _
      · simp only [regStep, RegStep.handle, hh, if_false]
        rw [UMap.find?_erase_ne _ _ _ (Ne.symm hh)]
        exact ih

theorem UMap.subscript_of_fixed {κ ν : Type} [DecidableEq κ] [Inhabited ν] (m : UMap κ ν)
    (k : κ) (f : ν → ν) (hk : k ∈ m.keys) (hf : f (m.read k) = m.read k) :
    m.subscript k f = m := by
  have hmap : m.entries.map (fun e => if e.1 = k then (e.1, f e.2) else e) = m.entries := by
    conv_rhs => rw [← List.map_id m.entries]
    apply List.map_congr_left
    intro e he
    by_cases hek : e.1 = k
    · have hfind : m.find? k = some e.2 := by
        rw [UMap.find?_eq_some_iff, ← hek]
        exact he
      rw [UMap.read_of_find? m k e.2 hfind] at hf
      simp [hek, hf]
      rw [← hek]
    · simp [hek]
  have hk2 : k ∈ m.entries.map Prod.fst := hk
  unfold UMap.subscript
  rw [dif_pos hk2]
  obtain ⟨l, hl⟩ := m
  simp only [UMap.mk.injEq]
  exact hmap

theorem isTrimChar_iff (c : Char) :
    isTrimChar c = true ↔ c = ' ' ∨ c = '\t' ∨ c = '\r' ∨ c = '\n' := by
  simp [isTrimChar, or_assoc]

/-! ## Lemmas on `load_users` -/

theorem extractUntil_of_not_mem (delim : Char) (l : List Char) (h : delim ∉ l) :
    extractUntil delim l = (l, none) := by
  induction l with
  | nil => rfl
  | cons c cs ih =>
    have hc : ¬ c = delim := fun e => h (e ▸ List.mem_cons_self _ _)
    have ih := ih (fun hm => h (List.mem_cons_of_mem _ hm))
    simp [extractUntil, hc, ih]

theorem extractUntil_split (delim : Char) (before after : List Char) (h : delim ∉ before) :
    extractUntil delim (before ++ delim :: after) = (before, some after) := by
  induction before with
  | nil => simp [extractUntil]
  | cons c cs ih =>
    have hc : ¬ c = delim := fun e => h (e ▸ List.mem_cons_self _ _)
    have ih := ih (fun hm => h (List.mem_cons_of_mem _ hm))
    simp [extractUntil, hc, ih]

/-- What `extractUntil` returns, in terms of the input. -/
theorem extractUntil_cases (delim : Char) (l : List Char) :
    (∃ s rest1, extractUntil delim l = (s, some rest1) ∧ l = s ++ delim :: rest1 ∧ delim ∉ s) ∨
    (extractUntil delim l = (l, none) ∧ delim ∉ l) := by
  induction l with
  | nil => exact Or.inr ⟨rfl, by simp⟩
  | cons c cs ih =>
    by_cases hc : c = delim
    · exact Or.inl ⟨[], cs, by simp [extractUntil, hc], by simp [hc], by simp⟩
    · rcases ih with ⟨s, rest1, h1, h2, h3⟩ | ⟨h1, h2⟩
      · refine Or.inl ⟨c :: s, rest1, by simp [extractUntil, hc, h1], by simp [h2], ?_⟩
        simp only [List.mem_cons, not_or]
        exact ⟨fun e => hc e.symm, h3⟩
      · refine Or.inr ⟨by simp [extractUntil, hc, h1], ?_⟩
        simp only [List.mem_cons, not_or]
        exact ⟨fun e => hc e.symm, h2⟩

theorem getline_found (l : List Char) (str : String) (delim : Char) (s rest1 : List Char)
    (h : extractUntil delim l = (s, some rest1)) :
    getline { rest := l, eofbit := false, failbit := false } str delim
      = ({ rest := rest1, eofbit := false, failbit := false }, ⟨s⟩) := by
  simp [getline, h]

theorem getline_at_end (l : List Char) (str : String) (delim : Char) (s : List Char)
    (h : extractUntil delim l = (s, none)) :
    getline { rest := l, eofbit := false, failbit := false } str delim
      = ({ rest := [], eofbit := true, failbit := decide (s = []) }, ⟨s⟩) := by
  simp [getline, h]

theorem getline_after_eof (l : List Char) (fail : Bool) (str : String) (delim : Char) :
    getline { rest := l, eofbit := true, failbit := fail } str delim
      = ({ rest := l, eofbit := true, failbit := true }, str) := by
  simp [getline]

theorem load_users_line_no_colon (w : World) (line : String) (h : ':' ∉ line.data) :
    load_users_line w line = w := by
  have hex := extractUntil_of_not_mem ':' line.data h
  unfold load_users_line
  simp only [getline_at_end _ _ _ _ hex, getline_after_eof]
  by_cases hl : line.data = [] <;> simp [hl]

theorem load_users_line_colon_last (w : World) (before : List Char) (h : ':' ∉ before) :
    load_users_line w ⟨before ++ [':']⟩ = w := by
  have hex := extractUntil_split ':' before [] h
  have hex2 : extractUntil '\n' [] = ([], none) := rfl
  unfold load_users_line
  simp only [getline_found _ _ _ _ _ hex, getline_at_end _ _ _ _ hex2]
  simp

theorem load_users_line_entry (w : World) (before after : List Char) (h : ':' ∉ before)
    (hnl : '\n' ∉ after) (hne : after ≠ []) :
    load_users_line w ⟨before ++ ':' :: after⟩
      = { w with users := w.users.subscript (trim ⟨before⟩) (fun _ => trim ⟨after⟩) } := by
  have hex := extractUntil_split ':' before after h
  have hex2 := extractUntil_of_not_mem '\n' after hnl
  unfold load_users_line
  simp only [getline_found _ _ _ _ _ hex, getline_at_end _ _ _ _ hex2]
  simp [hne]

theorem fileLinesFrom_of_extract (cur l : List Char) :
    (∀ s rest1, extractUntil '\n' l = (s, some rest1) →
      fileLinesFrom cur l = ⟨cur ++ s⟩ :: fileLinesFrom [] rest1) ∧
    (∀ s, extractUntil '\n' l = (s, none) →
      fileLinesFrom cur l = if cur ++ s = [] then [] else [⟨cur ++ s⟩]) := by
  induction l generalizing cur with
  | nil =>
    constructor
    · intro s rest1 h
      simp [extractUntil] at h
    · intro s h
      simp only [extractUntil, Prod.mk.injEq, and_true] at h
      subst h
      simp [fileLinesFrom]
  | cons c cs ih =>
    by_cases hc : c = '\n'
    · constructor
      · intro s rest1 h
        simp only [extractUntil, hc, if_true, Prod.mk.injEq, Option.some.injEq] at h
        obtain ⟨rfl, rfl⟩ := h
        simp [fileLinesFrom, hc]
      · intro s h
        simp [extractUntil, hc] at h
    · constructor
      · intro s rest1 h
        simp only [extractUntil, hc, if_false, Prod.mk.injEq] at h
        obtain ⟨rfl, h2⟩ := h
        have := (ih (cur ++ [c])).1 _ rest1 (Prod.ext rfl h2)
        simp only [fileLinesFrom, hc, if_false, this]
        simp
      · intro s h
        simp only [extractUntil, hc, if_false, Prod.mk.injEq] at h
        obtain ⟨rfl, h2⟩ := h
        have := (ih (cur ++ [c])).2 _ (Prod.ext rfl h2)
        simp only [fileLinesFrom, hc, if_false, this]
        simp

theorem load_users_loop_at_eof (fuel : Nat) (fail : Bool) (line : String) (w : World) :
    load_users_loop (fuel + 1) { rest := [], eofbit := true, failbit := fail } line w = w := by
  simp [load_users_loop, getline_after_eof]

/-- With enough iterations allowed, the loop of `load_users` treats the lines of the file
one after the other. -/
theorem load_users_loop_eq (fuel : Nat) (l : List Char) (line : String) (w : World)
    (hfuel : l.length + 2 ≤ fuel) :
    load_users_loop fuel { rest := l, eofbit := false, failbit := false } line w
      = (fileLinesFrom [] l).foldl load_users_line w := by
  induction fuel generalizing l line w with
  | zero => omega
  | succ fuel ih =>
    rcases extractUntil_cases '\n' l with ⟨s, rest1, h1, h2, _⟩ | ⟨h1, _⟩
    · have hlen : rest1.length + 2 ≤ fuel := by
        have := congrArg List.length h2
        simp at this
        omega
      rw [((fileLinesFrom_of_extract [] l).1 s rest1 h1)]
      simp only [load_users_loop, getline_found _ _ _ _ _ h1, Bool.false_eq_true, if_false,
        List.foldl_cons, List.nil_append]
      exact ih rest1 ⟨s⟩ (load_users_line w ⟨s⟩) hlen
    · rw [((fileLinesFrom_of_extract [] l).2 l h1)]
      obtain ⟨fuel1, rfl⟩ : ∃ k, fuel = k + 1 := ⟨fuel - 1, by omega⟩
      rw [load_users_loop]
      simp only [getline_at_end _ _ _ _ h1, load_users_loop_at_eof]
      by_cases hl : l = [] <;> simp [hl]

theorem fileLinesFrom_no_newline (cur l : List Char) (hcur : '\n' ∉ cur) :
    ∀ line ∈ fileLinesFrom cur l, '\n' ∉ line.data := by
  induction l generalizing cur with
  | nil =>
    intro line hline
    by_cases hc : cur = []
    · simp [fileLinesFrom, hc] at hline
    · simp only [fileLinesFrom, hc, if_false, List.mem_singleton] at hline
      rw [hline]
      exact hcur
  | cons c cs ih =>
    intro line hline
    by_cases hc : c = '\n'
    · simp only [fileLinesFrom, hc, if_true, List.mem_cons] at hline
      rcases hline with hline | hline
      · rw [hline]
        exact hcur
      · exact ih [] (by simp) line hline
    · simp only [fileLinesFrom, hc, if_false] at hline
      refine ih (cur ++ [c]) ?_ line hline
      simp only [List.mem_append, List.mem_singleton, not_or]
      exact ⟨hcur, fun e => hc e.symm⟩

/-! ## Lemmas on the texts sent -/

/-- A text built as `a ++ n ++ c`, with `c` ending in a line feed, ends in a line feed. -/
theorem getLast?_append_literal (x : String) (c : String)
    (hc : c.data.getLast? = some '\n') : (x ++ c).data.getLast? = some '\n' := by
  simp [String.data_append, List.getLast?_append, hc]

theorem count_newline_eq_zero (s : String) (h : '\n' ∉ s.data) : s.data.count '\n' = 0 :=
  List.count_eq_zero.2 h

/-- The reply lines of the group functions: literal, name, literal. -/
theorem reply_line (a n c : String) (ha : a.data.count '\n' = 0)
    (hc1 : c.data.getLast? = some '\n') (hc2 : c.data.count '\n' = 1) :
    (a ++ n ++ c).data.getLast? = some '\n' ∧
    ('\n' ∉ n.data → (a ++ n ++ c).data.count '\n' = 1) := by
  refine ⟨getLast?_append_literal _ _ hc1, fun hn => ?_⟩
  simp only [String.data_append, List.count_append, ha, hc2, count_newline_eq_zero n hn]

/-- The message lines: literal, name, literal, name, literal, text, line feed. -/
theorem message_line (a n b u c t : String) (ha : a.data.count '\n' = 0)
    (hb : b.data.count '\n' = 0) (hc : c.data.count '\n' = 0) :
    (a ++ n ++ b ++ u ++ c ++ t ++ "\n").data.getLast? = some '\n' ∧
    ('\n' ∉ n.data → '\n' ∉ u.data → '\n' ∉ t.data →
      (a ++ n ++ b ++ u ++ c ++ t ++ "\n").data.count '\n' = 1) := by
  refine ⟨getLast?_append_literal _ _ (by decide), fun hn hu ht => ?_⟩
  have h1 : ("\n" : String).data.count '\n' = 1 := by decide
  simp only [String.data_append, List.count_append, ha, hb, hc, h1,
    count_newline_eq_zero n hn, count_newline_eq_zero u hu, count_newline_eq_zero t ht]

/-- The private line: literal, sender, literal, text, line feed. -/
theorem private_line (a n b t : String) (ha : a.data.count '\n' = 0)
    (hb : b.data.count '\n' = 0) :
    (a ++ n ++ b ++ t ++ "\n").data.getLast? = some '\n' ∧
    ('\n' ∉ n.data → '\n' ∉ t.data → (a ++ n ++ b ++ t ++ "\n").data.count '\n' = 1) := by
  refine ⟨getLast?_append_literal _ _ (by decide), fun hn ht => ?_⟩
  have h1 : ("\n" : String).data.count '\n' = 1 := by decide
  simp only [String.data_append, List.count_append, ha, hb, h1,
    count_newline_eq_zero n hn, count_newline_eq_zero t ht]

/-- The sends of `private_message`. -/
theorem private_message_sent (w : World) (sender_socket : Int) (sender recipient message : String) :
    ∃ h line, (private_message w sender_socket sender recipient message).sent
        = w.sent ++ [(h, line)] ∧
      (line = "[Private] " ++ sender ++ ": " ++ message ++ "\n" ∨
       line = "User '" ++ recipient ++ "' not found\n") := by
  by_cases hfound : ∃ e ∈ w.clients.entries, e.2 = recipient
  · obtain ⟨e, _, _, hscan⟩ :=
      private_message_scan_found sender recipient message w.clients.entries w hfound
    refine ⟨e.1, _, ?_, Or.inl rfl⟩
    simp only [private_message, hscan, send_message]
    rfl
  · have hnone : ∀ e ∈ w.clients.entries, e.2 ≠ recipient := fun e he her => hfound ⟨e, he, her⟩
    refine ⟨sender_socket, _, ?_, Or.inr rfl⟩
    simp only [private_message,
      private_message_scan_not_found sender recipient message w.clients.entries w hnone,
      send_message]
    rfl

/-- The sends of `create_group`. -/
theorem create_group_sent (w : World) (h : Int) (name : String) :
    ∃ line, (create_group w h name).sent = w.sent ++ [(h, line)] ∧
      (line = "Group name cannot be empty or whitespace only.\n" ∨
       line = "Group '" ++ trim name ++ "' already exists\n" ∨
       line = "Group '" ++ trim name ++ "' created & joined\n") := by
  unfold create_group
  simp only
  split_ifs
  · exact ⟨_, rfl, Or.inl rfl⟩
  · exact ⟨_, rfl, Or.inr (Or.inl rfl)⟩
  · exact ⟨_, rfl, Or.inr (Or.inr rfl)⟩

/-- The sends of `join_group`. -/
theorem join_group_sent (w : World) (h : Int) (name : String) :
    ∃ line, (join_group w h name).sent = w.sent ++ [(h, line)] ∧
      (line = "Group name cannot be empty or whitespace only.\n" ∨
       line = "[Error] Group '" ++ trim name ++ "' doesn't exist\n" ∨
       line = "You joined the group '" ++ trim name ++ "'\n") := by
  unfold join_group
  simp only
  split_ifs
  · exact ⟨_, rfl, Or.inl rfl⟩
  · exact ⟨_, rfl, Or.inr (Or.inl rfl)⟩
  · exact ⟨_, rfl, Or.inr (Or.inr rfl)⟩

/-- The sends of `leave_group`. -/
theorem leave_group_sent (w : World) (h : Int) (name : String) :
    ∃ line, (leave_group w h name).sent = w.sent ++ [(h, line)] ∧
      (line = "Group name cannot be empty or whitespace only.\n" ∨
       line = "Not in group '" ++ trim name ++ "'\n" ∨
       line = "Left group '" ++ trim name ++ "'\n") := by
  unfold leave_group
  simp only
  split_ifs
  · exact ⟨_, rfl, Or.inl rfl⟩
  · exact ⟨_, rfl, Or.inr (Or.inl rfl)⟩
  · exact ⟨_, rfl, Or.inr (Or.inr rfl)⟩

/-- The sends of `group_message`: every one carries one of four texts. -/
theorem group_message_sent (w w1 : World) (h : Int) (name text : String)
    (hrun : group_message w h name text = some w1) :
    ∃ d, w1.sent = w.sent ++ d ∧ ∀ p ∈ d,
      p.2 = "Group message cannot be empty.\n" ∨
      p.2 = "Group '" ++ trim name ++ "' doesn't exist\n" ∨
      p.2 = "You're not in group '" ++ trim name ++ "'\n" ∨
      ∃ u, w.clients.find? h = some u ∧
        p.2 = "[Group " ++ trim name ++ "] " ++ u ++ ": " ++ trim text ++ "\n" := by
  unfold group_message at hrun
  simp only at hrun
  split_ifs at hrun with h1 h2 h3
  · cases hrun
    exact ⟨[_], rfl, fun p hp => Or.inl (by rw [List.mem_singleton.1 hp])⟩
  · cases hrun
    exact ⟨[_], rfl, fun p hp => Or.inr (Or.inl (by rw [List.mem_singleton.1 hp]))⟩
  · cases hrun
    exact ⟨[_], rfl, fun p hp => Or.inr (Or.inr (Or.inl (by rw [List.mem_singleton.1 hp])))⟩
  · cases hf : w.clients.find? h with
    | none => rw [hf] at hrun; cases hrun
    | some u =>
      rw [hf] at hrun
      simp only [foldl_send_sent, Option.some.injEq] at hrun
      subst hrun
      refine ⟨_, rfl, fun p hp => Or.inr (Or.inr (Or.inr ⟨u, rfl, ?_⟩))⟩
      simp only [List.mem_map] at hp
      obtain ⟨x, _, rfl⟩ := hp
      rfl

/-! ## Lemmas on the group names -/

/-- The functions `create_group`, `join_group`, `leave_group` add at most the key
`trim name`, and only when it is not empty. -/
theorem group_keys_after (w : World) (h : Int) (name g : String) :
    (g ∈ (create_group w h name).groups.keys → g ∈ w.groups.keys ∨ (g = trim name ∧ g ≠ "")) ∧
    (g ∈ (join_group w h name).groups.keys → g ∈ w.groups.keys ∨ (g = trim name ∧ g ≠ "")) ∧
    (g ∈ (leave_group w h name).groups.keys → g ∈ w.groups.keys ∨ (g = trim name ∧ g ≠ "")) := by
  rw [create_group_groups, join_group_groups, leave_group_groups]
  refine ⟨?_, ?_, ?_⟩
  · split_ifs with hc
    · exact Or.inl
    · intro hg
      rcases (UMap.mem_keys_subscript _ _ _ _).1 hg with hg | hg
      · exact Or.inl hg
      · exact Or.inr ⟨hg, fun he => hc (Or.inl (hg ▸ he))⟩
  · split_ifs with hc
    · exact Or.inl
    · intro hg
      rcases (UMap.mem_keys_subscript _ _ _ _).1 hg with hg | hg
      · exact Or.inl hg
      · exact Or.inr ⟨hg, fun he => hc (Or.inl (hg ▸ he))⟩
  · split_ifs with hc
    · exact Or.inl
    · intro hg
      rcases (UMap.mem_keys_subscript _ _ _ _).1 hg with hg | hg
      · exact Or.inl hg
      · exact Or.inr ⟨hg, fun he => hc (Or.inl (hg ▸ he))⟩

/-- The binding of a name other than `trim name` is not touched by the three functions. -/
theorem group_binding_untouched (w : World) (h : Int) (name a : String) (ha : a ≠ trim name) :
    (create_group w h name).groups.find? a = w.groups.find? a ∧
    (join_group w h name).groups.find? a = w.groups.find? a ∧
    (leave_group w h name).groups.find? a = w.groups.find? a := by
  rw [create_group_groups, join_group_groups, leave_group_groups]
  refine ⟨?_, ?_, ?_⟩ <;> split_ifs <;>
    first
    | rfl
    | exact UMap.find?_subscript_ne _ _ _ _ ha

/-- One step keeps the property that every group name is non-empty and its own trim. -/
theorem step_keeps_names_trimmed (w w1 : World) (s : Step) (hrun : step w s = some w1)
    (hinv : ∀ g ∈ w.groups.keys, g ≠ "" ∧ trim g = g) :
    ∀ g ∈ w1.groups.keys, g ≠ "" ∧ trim g = g := by
  have hnew : ∀ (g name : String), g ∈ w.groups.keys ∨ (g = trim name ∧ g ≠ "") →
      g ≠ "" ∧ trim g = g := by
    intro g name hg
    rcases hg with hg | ⟨hg, hne⟩
    · exact hinv g hg
    · exact ⟨hne, by rw [hg, trim_idem]⟩
  intro g hg
  cases s with
  | create h name =>
    simp only [step, Option.some.injEq] at hrun
    subst hrun
    exact hnew g name ((group_keys_after w h name g).1 hg)
  | join h name =>
    simp only [step, Option.some.injEq] at hrun
    subst hrun
    exact hnew g name ((group_keys_after w h name g).2.1 hg)
  | leave h name =>
    simp only [step, Option.some.injEq] at hrun
    subst hrun
    exact hnew g name ((group_keys_after w h name g).2.2 hg)
  | message h name text =>
    simp only [step] at hrun
    rw [(group_message_registries w w1 h name text hrun).2] at hg
    exact hinv g hg
  | disconnect h u =>
    simp only [step, Option.some.injEq] at hrun
    subst hrun
    rw [handle_client_cleanup_eq] at hg
    simp only [UMap.keys_mapValues] at hg
    exact hinv g hg

theorem run_keeps_names_trimmed (steps : List Step) (w w1 : World)
    (hrun : run w steps = some w1)
    (hinv : ∀ g ∈ w.groups.keys, g ≠ "" ∧ trim g = g) :
    ∀ g ∈ w1.groups.keys, g ≠ "" ∧ trim g = g := by
  induction steps generalizing w with
  | nil =>
    simp only [run, Option.some.injEq] at hrun
    exact hrun ▸ hinv
  | cons s rest ih =>
    simp only [run] at hrun
    cases hs : step w s with
    | none => rw [hs] at hrun; cases hrun
    | some w2 =>
      rw [hs] at hrun
      exact ih w2 hrun (step_keeps_names_trimmed w w2 s hs hinv)

/-- A non-empty string that is its own trim neither begins nor ends with a character of
the set. -/
theorem trimmed_ends (g : String) (hne : g ≠ "") (ht : trim g = g) :
    (∀ c, g.data.head? = some c → c ≠ ' ' ∧ c ≠ '\t' ∧ c ≠ '\r' ∧ c ≠ '\n') ∧
    (∀ c, g.data.getLast? = some c → c ≠ ' ' ∧ c ≠ '\t' ∧ c ≠ '\r' ∧ c ≠ '\n') := by
  have hne2 : trim g ≠ "" := by rw [ht]; exact hne
  obtain ⟨⟨c1, rest, h1, hc1⟩, ⟨init, c2, h2, hc2⟩⟩ := trim_ends g hne2
  rw [ht] at h1 h2
  have hout : ∀ c, isTrimChar c = false → c ≠ ' ' ∧ c ≠ '\t' ∧ c ≠ '\r' ∧ c ≠ '\n' := by
    intro c hc
    have := (isTrimChar_iff c).not.1 (by simp [hc])
    simpa [not_or] using this
  constructor
  · intro c hc
    rw [h1] at hc
    simp only [List.head?_cons, Option.some.injEq] at hc
    exact hc ▸ hout c1 hc1
  · intro c hc
    rw [h2, List.getLast?_concat] at hc
    simp only [Option.some.injEq] at hc
    exact hc ▸ hout c2 hc2

/-! ## Lemmas on the sequential model of the connections -/

theorem private_message_scan_registries (sender recipient message : String)
    (l : List (Int × String)) (w : World) :
    (private_message_scan sender recipient message l w).1.clients = w.clients ∧
    (private_message_scan sender recipient message l w).1.groups = w.groups := by
  induction l with
  | nil => exact ⟨rfl, rfl⟩
  | cons e l ih =>
    rw [private_message_scan]
    split_ifs
    · exact ⟨rfl, rfl⟩
    · exact ih

theorem private_message_registries (w : World) (sender_socket : Int)
    (sender recipient message : String) :
    (private_message w sender_socket sender recipient message).clients = w.clients ∧
    (private_message w sender_socket sender recipient message).groups = w.groups := by
  have h := private_message_scan_registries sender recipient message w.clients.entries w
  unfold private_message
  simp only
  split_ifs
  · exact h
  · exact h

/-- The three group functions leave `clients` as it was. -/
theorem group_functions_clients (w : World) (h : Int) (name : String) :
    (create_group w h name).clients = w.clients ∧
    (join_group w h name).clients = w.clients ∧
    (leave_group w h name).clients = w.clients := by
  unfold create_group join_group leave_group
  simp only
  refine ⟨?_, ?_, ?_⟩ <;> split_ifs <;> rfl

/-- What a command line can do to the registries: nothing, or what one of the three group
functions does. -/
theorem handle_client_command_registries (w w1 : World) (h : Int) (u msg : String)
    (hrun : handle_client_command w h u msg = some w1) :
    w1.clients = w.clients ∧
    (w1.groups = w.groups ∨ ∃ name, w1.groups = (create_group w h name).groups ∨
      w1.groups = (join_group w h name).groups ∨ w1.groups = (leave_group w h name).groups) := by
  unfold handle_client_command at hrun
  split_ifs at hrun
  · simp only [Option.some.injEq] at hrun
    subst hrun
    rw [broadcast_message_eq]
    exact ⟨rfl, Or.inl rfl⟩
  · cases hf : find msg ' ' 5 with
    | none =>
      simp only [hf, Option.some.injEq] at hrun
      subst hrun
      exact ⟨rfl, Or.inl rfl⟩
    | some space =>
      simp only [hf, Option.some.injEq] at hrun
      subst hrun
      exact ⟨(private_message_registries _ _ _ _ _).1,
        Or.inl (private_message_registries _ _ _ _ _).2⟩
  · simp only [Option.some.injEq] at hrun
    subst hrun
    exact ⟨(group_functions_clients _ _ _).1, Or.inr ⟨_, Or.inl rfl⟩⟩
  · simp only [Option.some.injEq] at hrun
    subst hrun
    exact ⟨(group_functions_clients _ _ _).2.1, Or.inr ⟨_, Or.inr (Or.inl rfl)⟩⟩
  · simp only [Option.some.injEq] at hrun
    subst hrun
    exact ⟨(group_functions_clients _ _ _).2.2, Or.inr ⟨_, Or.inr (Or.inr rfl)⟩⟩
  · cases hf : find msg ' ' 11 with
    | none =>
      simp only [hf, Option.some.injEq] at hrun
      subst hrun
      exact ⟨rfl, Or.inl rfl⟩
    | some space =>
      simp only [hf] at hrun
      have := group_message_registries _ _ _ _ _ hrun
      exact ⟨this.1, Or.inl this.2⟩
  · simp only [Option.some.injEq] at hrun
    subst hrun
    exact ⟨rfl, Or.inl rfl⟩
  · simp only [Option.some.injEq] at hrun
    subst hrun
    exact ⟨rfl, Or.inl rfl⟩

theorem membersRegistered_read (w : World) (hinv : membersRegistered w) (k : String) (x : Int)
    (hx : x ∈ (w.groups.read k).elems) : x ∈ w.clients.keys := by
  unfold UMap.read at hx
  cases hf : w.groups.find? k with
  | none =>
    rw [hf] at hx
    exact absurd hx (List.not_mem_nil x)
  | some s =>
    rw [hf] at hx
    exact hinv k s hf x hx

/-- The group functions called by a registered handle keep every member registered. -/
theorem membersRegistered_group_functions (w : World) (hinv : membersRegistered w) (h : Int)
    (name : String) (hreg : h ∈ w.clients.keys) (g : String) (s : USet) :
    ((create_group w h name).groups.find? g = some s → ∀ x ∈ s.elems, x ∈ w.clients.keys) ∧
    ((join_group w h name).groups.find? g = some s → ∀ x ∈ s.elems, x ∈ w.clients.keys) ∧
    ((leave_group w h name).groups.find? g = some s → ∀ x ∈ s.elems, x ∈ w.clients.keys) := by
  have hins : (w.groups.subscript (trim name) (fun t => t.insert h)).find? g = some s →
      ∀ x ∈ s.elems, x ∈ w.clients.keys := by
    intro hf x hx
    by_cases hg : g = trim name
    · subst hg
      rw [UMap.find?_subscript_self] at hf
      simp only [Option.some.injEq] at hf
      subst hf
      rcases (USet.mem_insert _ _ _).1 hx with hx | hx
      · exact membersRegistered_read w hinv _ x hx
      · exact hx ▸ hreg
    · rw [UMap.find?_subscript_ne _ _ _ _ hg] at hf
      exact hinv g s hf x hx
  have hers : (w.groups.subscript (trim name) (fun t => t.erase h)).find? g = some s →
      ∀ x ∈ s.elems, x ∈ w.clients.keys := by
    intro hf x hx
    by_cases hg : g = trim name
    · subst hg
      rw [UMap.find?_subscript_self] at hf
      simp only [Option.some.injEq] at hf
      subst hf
      exact membersRegistered_read w hinv _ x ((USet.mem_erase _ _ _).1 hx).1
    · rw [UMap.find?_subscript_ne _ _ _ _ hg] at hf
      exact hinv g s hf x hx
  rw [create_group_groups, join_group_groups, leave_group_groups]
  refine ⟨?_, ?_, ?_⟩ <;> split_ifs <;>
    first
    | exact fun hf => hinv g s hf
    | exact hins
    | exact hers

/-- Every event admitted in a state keeps every member registered. -/
theorem membersRegistered_fire (w w1 : World) (e : Event) (hinv : membersRegistered w)
    (hen : enabled w e = true) (hrun : fire w e = some w1) : membersRegistered w1 := by
  intro g s hf x hx
  cases e with
  | login h username =>
    simp only [fire, Option.some.injEq] at hrun
    subst hrun
    simp only [handle_client_register, broadcast_message_eq] at hf ⊢
    exact (UMap.mem_keys_subscript _ _ _ _).2 (Or.inl (hinv g s hf x hx))
  | command h msg =>
    simp only [enabled, decide_eq_true_eq] at hen
    simp only [fire] at hrun
    obtain ⟨hc, hg⟩ := handle_client_command_registries _ _ _ _ _ hrun
    rw [hc]
    rcases hg with hg | ⟨name, hg | hg | hg⟩
    · rw [hg] at hf
      exact hinv g s hf x hx
    · rw [hg] at hf
      exact (membersRegistered_group_functions w hinv h name hen g s).1 hf x hx
    · rw [hg] at hf
      exact (membersRegistered_group_functions w hinv h name hen g s).2.1 hf x hx
    · rw [hg] at hf
      exact (membersRegistered_group_functions w hinv h name hen g s).2.2 hf x hx
  | create h name =>
    simp only [enabled, decide_eq_true_eq] at hen
    simp only [fire, Option.some.injEq] at hrun
    subst hrun
    rw [(group_functions_clients w h name).1]
    exact (membersRegistered_group_functions w hinv h name hen g s).1 hf x hx
  | join h name =>
    simp only [enabled, decide_eq_true_eq] at hen
    simp only [fire, Option.some.injEq] at hrun
    subst hrun
    rw [(group_functions_clients w h name).2.1]
    exact (membersRegistered_group_functions w hinv h name hen g s).2.1 hf x hx
  | leave h name =>
    simp only [enabled, decide_eq_true_eq] at hen
    simp only [fire, Option.some.injEq] at hrun
    subst hrun
    rw [(group_functions_clients w h name).2.2]
    exact (membersRegistered_group_functions w hinv h name hen g s).2.2 hf x hx
  | message h name text =>
    simp only [fire] at hrun
    obtain ⟨hc, hg⟩ := group_message_registries _ _ _ _ _ hrun
    rw [hg] at hf
    rw [hc]
    exact hinv g s hf x hx
  | disconnect h =>
    simp only [fire, Option.some.injEq] at hrun
    subst hrun
    rw [handle_client_cleanup_eq] at hf ⊢
    simp only [UMap.find?_mapValues, Option.map_eq_some'] at hf
    obtain ⟨s0, hs0, rfl⟩ := hf
    have hx2 := (USet.mem_erase _ _ _).1 hx
    exact (UMap.mem_keys_erase _ _ _).2 ⟨hinv g s0 hs0 x hx2.1, hx2.2⟩

theorem membersRegistered_of_reach (w : World) (hreach : Reach w) : membersRegistered w := by
  induction hreach with
  | start w _ hg =>
    intro g s hf
    rw [hg, UMap.find?_empty] at hf
    cases hf
  | next w w1 e _ hen hrun ih => exact membersRegistered_fire w w1 e ih hen hrun

/-- Where every member is registered, `group_message` returns normally. -/
theorem group_message_returns (w : World) (hinv : membersRegistered w) (h : Int)
    (name text : String) : ∃ w1, group_message w h name text = some w1 := by
  unfold group_message
  simp only
  split_ifs with h1 h2 h3
  · exact ⟨_, rfl⟩
  · exact ⟨_, rfl⟩
  · exact ⟨_, rfl⟩
  · have hmem : h ∈ (w.groups.read (trim name)).elems := (USet.elem_count_ne_zero_iff _ _).1 h3
    have hreg := membersRegistered_read w hinv _ h hmem
    obtain ⟨u, hu⟩ := (UMap.mem_keys_iff _ _).1 hreg
    rw [hu]
    exact ⟨_, rfl⟩

/-- After a successful handshake `handle_client` does the registration step. -/
theorem handle_client_registers (w : World) (client_socket : Int) (r1 r2 : Recv)
    (hb1 : 0 < r1.bytes) (hb2 : 0 < r2.bytes) (hkey : trim r1.text ∈ w.users.keys)
    (hpw : w.users.read (trim r1.text) = trim r2.text) :
    handle_client w client_socket [r1, r2]
      = some (handle_client_register
          (send_message (send_message w client_socket "Username: ") client_socket "Password: ")
          client_socket (trim r1.text)) := by
  have hc : ¬ (w.users.count (trim r1.text) = 0 ∨
      w.users.read (trim r1.text) ≠ trim r2.text) := by
    rintro (h0 | h0)
    · exact (UMap.count_eq_zero_iff _ _).1 h0 hkey
    · exact h0 hpw
  simp only [handle_client, not_le.2 hb1, not_le.2 hb2, if_false, handle_client_loop]
  exact if_neg hc

/-- Where every member is registered, every command line is processed without a throw. -/
theorem handle_client_command_returns (w : World) (hinv : membersRegistered w) (h : Int)
    (u msg : String) : ∃ w1, handle_client_command w h u msg = some w1 := by
  unfold handle_client_command
  split_ifs
  · exact ⟨_, rfl⟩
  · cases find msg ' ' 5 <;> exact ⟨_, rfl⟩
  · exact ⟨_, rfl⟩
  · exact ⟨_, rfl⟩
  · exact ⟨_, rfl⟩
  · cases find msg ' ' 11 with
    | none => exact ⟨_, rfl⟩
    | some space => exact group_message_returns w hinv h _ _
  · exact ⟨_, rfl⟩
  · exact ⟨_, rfl⟩

/-! ## Lemmas on the locks -/

theorem lockOrderOk_clients_block (rest : List LockOp) :
    lockOrderOk [] (LockOp.acquire Mutex.clients_mutex :: LockOp.release Mutex.clients_mutex
      :: rest) = lockOrderOk [] rest := by
  simp [lockOrderOk]

theorem lockOrderOk_groups_block (rest : List LockOp) :
    lockOrderOk [] (LockOp.acquire Mutex.groups_mutex :: LockOp.release Mutex.groups_mutex
      :: rest) = lockOrderOk [] rest := by
  simp [lockOrderOk]

theorem lockOrderOk_both_block (rest : List LockOp) :
    lockOrderOk [] (LockOp.acquire Mutex.groups_mutex :: LockOp.acquire Mutex.clients_mutex ::
      LockOp.release Mutex.clients_mutex :: LockOp.release Mutex.groups_mutex :: rest)
      = lockOrderOk [] rest := by
  simp [lockOrderOk]

/-- The operations of one command keep the discipline of what follows. -/
theorem lockOrderOk_command (msg : String) (rest : List LockOp) :
    lockOrderOk [] (handle_client_command_locks msg ++ rest) = lockOrderOk [] rest := by
  unfold handle_client_command_locks broadcast_message_locks private_message_locks
    create_group_locks join_group_locks leave_group_locks group_message_locks
  split_ifs
  · exact lockOrderOk_clients_block rest
  · cases find msg ' ' 5 with
    | none => rfl
    | some space => exact lockOrderOk_clients_block rest
  · rfl
  · exact lockOrderOk_groups_block rest
  · rfl
  · exact lockOrderOk_groups_block rest
  · rfl
  · exact lockOrderOk_groups_block rest
  · cases find msg ' ' 11 with
    | none => rfl
    | some space =>
      simp only
      split_ifs
      · rfl
      · exact lockOrderOk_both_block rest
  · rfl

theorem lockOrderOk_loop (inputs : List Recv) :
    lockOrderOk [] (handle_client_loop_locks inputs) = true := by
  induction inputs with
  | nil => rfl
  | cons r rest ih =>
    rw [handle_client_loop_locks]
    split_ifs
    · decide
    · exact ih
    · rw [lockOrderOk_command]
      exact ih

theorem lockOrderOk_handle_client (users : UMap String String) (inputs : List Recv) :
    lockOrderOk [] (handle_client_locks users inputs) = true := by
  unfold handle_client_locks
  cases inputs with
  | nil => rfl
  | cons r1 inputs1 =>
    simp only
    split_ifs
    · rfl
    · cases inputs1 with
      | nil => rfl
      | cons r2 inputs2 =>
        simp only
        split_ifs
        · rfl
        · rfl
        · simp only [broadcast_message_locks, List.cons_append, List.nil_append,
            lockOrderOk_clients_block]
          exact lockOrderOk_loop inputs2

/-- Under the discipline `groups_mutex` is not acquired while `clients_mutex` is held. -/
theorem not_held_at_acquire_groups (pre post : List LockOp) (held : List Mutex)
    (hok : lockOrderOk held (pre ++ LockOp.acquire Mutex.groups_mutex :: post) = true) :
    Mutex.clients_mutex ∉ heldAfter held pre := by
  induction pre generalizing held with
  | nil =>
    simp only [List.nil_append, lockOrderOk, Bool.and_eq_true, decide_eq_true_eq] at hok
    exact hok.1.2 trivial
  | cons op pre ih =>
    cases op with
    | acquire m =>
      simp only [List.cons_append, lockOrderOk, Bool.and_eq_true] at hok
      exact ih (m :: held) hok.2
    | release m =>
      simp only [List.cons_append, lockOrderOk, Bool.and_eq_true] at hok
      exact ih (held.erase m) hok.2

theorem thread_step_ok (t : Thread) (hok : lockOrderOk t.held t.rest = true) :
    lockOrderOk t.step.held t.step.rest = true := by
  unfold Thread.step
  cases hr : t.rest with
  | nil =>
    simp only
    rw [hr]
    rw [hr] at hok
    exact hok
  | cons op rest =>
    rw [hr] at hok
    cases op with
    | acquire m =>
      simp only [lockOrderOk, Bool.and_eq_true] at hok
      exact hok.2
    | release m =>
      simp only [lockOrderOk, Bool.and_eq_true] at hok
      exact hok.2

/-- A step of one thread keeps the discipline of every thread. -/
theorem stepAt_keeps_ok (threads threads1 : List Thread) (i : Nat)
    (hinv : ∀ t ∈ threads, lockOrderOk t.held t.rest = true)
    (hstep : stepAt threads i = some threads1) :
    ∀ t ∈ threads1, lockOrderOk t.held t.rest = true := by
  unfold stepAt at hstep
  cases hg : threads.get? i with
  | none => rw [hg] at hstep; cases hstep
  | some t0 =>
    rw [hg] at hstep
    simp only at hstep
    split_ifs at hstep
    simp only [Option.some.injEq] at hstep
    subst hstep
    intro t ht
    rcases List.mem_or_eq_of_mem_set ht with h1 | h1
    · exact hinv t h1
    · rw [h1]
      exact thread_step_ok t0 (hinv t0 (List.get?_mem hg))

theorem runSchedule_keeps_ok (schedule : List Nat) (threads threads1 : List Thread)
    (hinv : ∀ t ∈ threads, lockOrderOk t.held t.rest = true)
    (hrun : runSchedule threads schedule = some threads1) :
    ∀ t ∈ threads1, lockOrderOk t.held t.rest = true := by
  induction schedule generalizing threads with
  | nil =>
    simp only [runSchedule, Option.some.injEq] at hrun
    exact hrun ▸ hinv
  | cons i schedule ih =>
    simp only [runSchedule] at hrun
    cases hs : stepAt threads i with
    | none => rw [hs] at hrun; cases hrun
    | some threads2 =>
      rw [hs] at hrun
      exact ih threads2 (stepAt_keeps_ok threads threads2 i hinv hs) hrun

/-- Threads that follow the discipline are never deadlocked. -/
theorem not_deadlocked_of_ok (threads : List Thread)
    (hinv : ∀ t ∈ threads, lockOrderOk t.held t.rest = true) : deadlocked threads = false := by
  by_contra hdead
  have hdead : deadlocked threads = true := by simpa using hdead
  simp only [deadlocked, Bool.and_eq_true, List.any_eq_true, List.all_eq_true,
    decide_eq_true_eq, Bool.not_eq_true'] at hdead
  obtain ⟨⟨t0, ht0, hrest0⟩, hstuck⟩ := hdead
  -- a thread with operations left waits for a mutex that some thread holds
  have hwait : ∀ t ∈ threads, t.rest ≠ [] →
      ∃ m rest1, t.rest = LockOp.acquire m :: rest1 ∧ ∃ t1 ∈ threads, m ∈ t1.held := by
    intro t ht hrest
    have hs := hstuck t ht
    unfold Thread.canStep at hs
    cases hr : t.rest with
    | nil => exact absurd hr hrest
    | cons op rest1 =>
      rw [hr] at hs
      cases op with
      | release m => simp at hs
      | acquire m =>
        simp only [List.all_eq_false, decide_eq_true_eq, not_not] at hs
        exact ⟨m, rest1, rfl, hs⟩
  -- a thread that holds a mutex has operations left
  have hbusy : ∀ t ∈ threads, ∀ m, m ∈ t.held → t.rest ≠ [] := by
    intro t ht m hm hrest
    have hok := hinv t ht
    rw [hrest] at hok
    simp only [lockOrderOk, decide_eq_true_eq] at hok
    rw [hok] at hm
    exact absurd hm (List.not_mem_nil m)
  -- no thread waits for `clients_mutex`
  have hnot_clients : ∀ t ∈ threads, ∀ rest1,
      t.rest ≠ LockOp.acquire Mutex.clients_mutex :: rest1 := by
    intro t ht rest1 hr
    obtain ⟨m, rest2, hr2, t1, ht1, hheld⟩ := hwait t ht (by rw [hr]; simp)
    rw [hr] at hr2
    simp only [List.cons.injEq, LockOp.acquire.injEq] at hr2
    obtain ⟨rfl, _⟩ := hr2
    obtain ⟨m1, rest3, hr3, _⟩ := hwait t1 ht1 (hbusy t1 ht1 _ hheld)
    have hok := hinv t1 ht1
    rw [hr3] at hok
    simp only [lockOrderOk, Bool.and_eq_true, decide_eq_true_eq] at hok
    cases m1 with
    | clients_mutex => exact hok.1.1 hheld
    | groups_mutex => exact hok.1.2 rfl hheld
  obtain ⟨m, rest1, hr, t1, ht1, hheld⟩ := hwait t0 ht0 hrest0
  cases m with
  | clients_mutex => exact hnot_clients t0 ht0 rest1 hr
  | groups_mutex =>
    obtain ⟨m1, rest3, hr3, _⟩ := hwait t1 ht1 (hbusy t1 ht1 _ hheld)
    cases m1 with
    | clients_mutex => exact hnot_clients t1 ht1 rest3 hr3
    | groups_mutex =>
      have hok := hinv t1 ht1
      rw [hr3] at hok
      simp only [lockOrderOk, Bool.and_eq_true, decide_eq_true_eq] at hok
      exact hok.1.1 hheld

theorem startThreads_ok (users : UMap String String) (connections : List (List Recv)) :
    ∀ t ∈ startThreads users connections, lockOrderOk t.held t.rest = true := by
  intro t ht
  simp only [startThreads, List.mem_map] at ht
  obtain ⟨inputs, _, rfl⟩ := ht
  exact lockOrderOk_handle_client users inputs

/-- Two threads that follow the discipline never wait for each other, and a thread never
waits for itself. -/
theorem no_mutual_wait (t1 t2 : Thread) (h1 : lockOrderOk t1.held t1.rest = true)
    (h2 : lockOrderOk t2.held t2.rest = true) :
    (waitsFor t1 t2 && waitsFor t2 t1) = false := by
  by_contra hw
  have hw : (waitsFor t1 t2 && waitsFor t2 t1) = true := by simpa using hw
  simp only [Bool.and_eq_true] at hw
  obtain ⟨hw1, hw2⟩ := hw
  unfold waitsFor at hw1 hw2
  cases hr1 : t1.rest with
  | nil => simp [hr1] at hw1
  | cons op1 rest1 =>
    cases op1 with
    | release m => simp [hr1] at hw1
    | acquire m1 =>
      cases hr2 : t2.rest with
      | nil => simp [hr2] at hw2
      | cons op2 rest2 =>
        cases op2 with
        | release m => simp [hr2] at hw2
        | acquire m2 =>
          rw [hr1] at hw1 h1
          rw [hr2] at hw2 h2
          simp only [decide_eq_true_eq] at hw1 hw2
          simp only [lockOrderOk, Bool.and_eq_true, decide_eq_true_eq] at h1 h2
          cases m1 with
          | clients_mutex =>
            cases m2 with
            | clients_mutex => exact h2.1.1 hw1
            | groups_mutex => exact h2.1.2 rfl hw1
          | groups_mutex =>
            cases m2 with
            | clients_mutex => exact h1.1.2 rfl hw2
            | groups_mutex => exact h2.1.1 hw1

/-! ## Claims -/

/-- C1: `broadcast_message(message, sender)` sends `message` exactly once to every
registered handle other than `sender`, sends nothing to `sender` or to an unregistered
handle, sends no other text, and leaves `clients` and `groups` as they were. -/
theorem broadcast_message_spec (w : World) (message : String) (sender : Int) :
    (broadcast_message w message sender).clients = w.clients ∧
    (broadcast_message w message sender).groups = w.groups ∧
    ∃ d, (broadcast_message w message sender).sent = w.sent ++ d ∧
      ∀ (h : Int) (t : String),
        timesSent d h t = if h ∈ w.clients.keys ∧ h ≠ sender ∧ t = message then 1 else 0 := by
  rw [broadcast_message_eq]
  exact ⟨rfl, rfl, _, rfl, fun h t => timesSent_loop message sender _ w.clients.nodup h t⟩

/-- C2: when `h1` is registered as "alice" and `h2` is the only handle registered as
"bob", `private_message(h1, "alice", "bob", text)` makes exactly one send, the private
line to `h2`, and none to `h1`; and for a recipient name that no session has,
`private_message` makes exactly one send, the line `User '<recipient>' not found`, to the
sender handle. -/
theorem private_message_spec (w : World) (h1 h2 : Int) (text : String) :
    (w.clients.find? h1 = some "alice" → w.clients.find? h2 = some "bob" →
      (∀ e ∈ w.clients.entries, e.2 = "bob" → e.1 = h2) →
      (private_message w h1 "alice" "bob" text).sent
          = w.sent ++ [(h2, "[Private] " ++ "alice" ++ ": " ++ text ++ "\n")] ∧
        h1 ≠ h2) ∧
    (∀ (sender_socket : Int) (sender recipient : String),
      (∀ e ∈ w.clients.entries, e.2 ≠ recipient) →
      (private_message w sender_socket sender recipient text).sent
          = w.sent ++ [(sender_socket, "User '" ++ recipient ++ "' not found\n")]) := by
  constructor
  · intro ha hb huniq
    have hmem : (h2, "bob") ∈ w.clients.entries := (UMap.find?_eq_some_iff _ _ _).1 hb
    obtain ⟨e, he, her, hscan⟩ :=
      private_message_scan_found "alice" "bob" text w.clients.entries w ⟨_, hmem, rfl⟩
    have he2 : e.1 = h2 := huniq e he her
    refine ⟨?_, ?_⟩
    · simp only [private_message, hscan, he2, send_message]
      rfl
    · intro h12
      rw [h12, hb] at ha
      exact absurd ha (by decide)
  · intro sender_socket sender recipient hnone
    simp only [private_message,
      private_message_scan_not_found sender recipient text w.clients.entries w hnone,
      send_message]
    rfl

theorem private_message_spec_witness :
    sampleWorld.clients.find? 4 = some "alice" ∧ sampleWorld.clients.find? 5 = some "bob" ∧
    (∀ e ∈ sampleWorld.clients.entries, e.2 = "bob" → e.1 = 5) ∧
    (∀ e ∈ sampleWorld.clients.entries, e.2 ≠ "dave") ∧
    ((private_message sampleWorld 4 "alice" "bob" "hi").sent
        = sampleWorld.sent ++ [(5, "[Private] " ++ "alice" ++ ": " ++ "hi" ++ "\n")] ∧
      (4 : Int) ≠ 5) ∧
    (private_message sampleWorld 4 "alice" "dave" "hi").sent
        = sampleWorld.sent ++ [(4, "User '" ++ "dave" ++ "' not found\n")] :=
  ⟨by decide, by decide, by decide, by decide,
    (private_message_spec sampleWorld 4 5 "hi").1 (by decide) (by decide) (by decide),
    (private_message_spec sampleWorld 4 5 "hi").2 4 "alice" "dave" (by decide)⟩

/-- C3: when the sender is registered with username `u`, is a member of the group named
`trim group`, and `trim text` is not empty, `group_message(sender, group, text)` returns
normally, sends the line `"[Group " + trim(group) + "] " + u + ": " + trim(text) + "\n"`
exactly once to every member other than the sender, sends nothing else (nothing to the
sender, nothing to a non-member), and leaves `clients` and `groups` as they were. -/
theorem group_message_spec (w : World) (sender_socket : Int) (group text u : String)
    (members : USet)
    (hreg : w.clients.find? sender_socket = some u)
    (hgrp : w.groups.find? (trim group) = some members)
    (hmem : sender_socket ∈ members.elems)
    (htext : trim text ≠ "") :
    ∃ w1, group_message w sender_socket group text = some w1 ∧
      w1.clients = w.clients ∧ w1.groups = w.groups ∧
      ∃ d, w1.sent = w.sent ++ d ∧
        ∀ (h : Int) (t : String),
          timesSent d h t =
            if h ∈ members.elems ∧ h ≠ sender_socket ∧
                t = "[Group " ++ trim group ++ "] " ++ u ++ ": " ++ trim text ++ "\n"
            then 1 else 0 := by
  have hcount : ¬ w.groups.count (trim group) = 0 := UMap.count_ne_zero_of_find? _ _ _ hgrp
  have hread : w.groups.read (trim group) = members := UMap.read_of_find? _ _ _ hgrp
  have hin : ¬ members.count sender_socket = 0 := (USet.elem_count_ne_zero_iff _ _).2 hmem
  have hgm : group_message w sender_socket group text
      = some (members.elems.foldl (fun acc member =>
          if member ≠ sender_socket then
            send_message acc member
              ("[Group " ++ trim group ++ "] " ++ u ++ ": " ++ trim text ++ "\n")
          else acc) w) := by
    simp only [group_message, htext, hcount, hread, hin, hreg, if_false]
  rw [foldl_send_sent] at hgm
  exact ⟨_, hgm, rfl, rfl, _, rfl,
    fun h t => timesSent_loop _ sender_socket _ members.nodup h t⟩

theorem group_message_spec_witness :
    sampleWorld.clients.find? 4 = some "alice" ∧
    sampleWorld.groups.find? (trim " g") = some ⟨[4, 5], by decide⟩ ∧
    (4 : Int) ∈ [4, 5] ∧ trim " hi \n" ≠ "" ∧
    ∃ w1, group_message sampleWorld 4 " g" " hi \n" = some w1 ∧
      w1.clients = sampleWorld.clients ∧ w1.groups = sampleWorld.groups ∧
      ∃ d, w1.sent = sampleWorld.sent ++ d ∧
        ∀ (h : Int) (t : String),
          timesSent d h t =
            if h ∈ [4, 5] ∧ h ≠ 4 ∧
                t = "[Group " ++ trim " g" ++ "] " ++ "alice" ++ ": " ++ trim " hi \n" ++ "\n"
            then 1 else 0 :=
  ⟨by decide, by decide, by decide, by decide,
    group_message_spec sampleWorld 4 " g" " hi \n" "alice" ⟨[4, 5], by decide⟩
      (by decide) (by decide) (by decide) (by decide)⟩

/-- C4: when the group named `trim g` exists, `h` is not one of its members and
`trim text` is not empty, `group_message(h, g, text)` returns normally, makes exactly one
send, the line `You're not in group '<trim g>'` to `h`, and leaves `clients` and `groups`
as they were; for `g = "g"` the line is `You're not in group 'g'`. -/
theorem group_message_not_member (w : World) (h : Int) (g text : String) (members : USet)
    (hgrp : w.groups.find? (trim g) = some members)
    (hnot : h ∉ members.elems)
    (htext : trim text ≠ "") :
    ∃ w1, group_message w h g text = some w1 ∧
      w1.clients = w.clients ∧ w1.groups = w.groups ∧
      w1.sent = w.sent ++ [(h, "You're not in group '" ++ trim g ++ "'\n")] := by
  have hcount : ¬ w.groups.count (trim g) = 0 := UMap.count_ne_zero_of_find? _ _ _ hgrp
  have hread : w.groups.read (trim g) = members := UMap.read_of_find? _ _ _ hgrp
  have hin : members.count h = 0 := (USet.elem_count_eq_zero_iff _ _).2 hnot
  have hgm : group_message w h g text
      = some (send_message w h ("You're not in group '" ++ trim g ++ "'\n")) := by
    simp only [group_message, htext, hcount, hread, hin, if_false, if_true]
  exact ⟨_, hgm, rfl, rfl, rfl⟩

theorem group_message_not_member_witness :
    sampleWorld.groups.find? (trim "g") = some ⟨[4, 5], by decide⟩ ∧
    (6 : Int) ∉ [4, 5] ∧ trim "hi" ≠ "" ∧ trim "g" = "g" ∧
    ∃ w1, group_message sampleWorld 6 "g" "hi" = some w1 ∧
      w1.clients = sampleWorld.clients ∧ w1.groups = sampleWorld.groups ∧
      w1.sent = sampleWorld.sent ++ [(6, "You're not in group '" ++ trim "g" ++ "'\n")] :=
  ⟨by decide, by decide, by decide, by decide,
    group_message_not_member sampleWorld 6 "g" "hi" ⟨[4, 5], by decide⟩
      (by decide) (by decide) (by decide)⟩

/-- C5: for a name whose trim `n` is not empty: when `n` is already a group,
`create_group(h, name)` leaves `groups` as it was and its only send is the line
`Group '<n>' already exists` to `h`; otherwise afterwards `n` is a group whose member set
is exactly `{h}`, every other name is bound as before, and the only send is the line
`Group '<n>' created & joined` to `h`. -/
theorem create_group_spec (w : World) (h : Int) (name : String) (hn : trim name ≠ "") :
    (trim name ∈ w.groups.keys →
      (create_group w h name).groups = w.groups ∧
      (create_group w h name).sent
        = w.sent ++ [(h, "Group '" ++ trim name ++ "' already exists\n")]) ∧
    (trim name ∉ w.groups.keys →
      (∃ s, (create_group w h name).groups.find? (trim name) = some s ∧ s.elems = [h]) ∧
      (∀ g, g ≠ trim name → (create_group w h name).groups.find? g = w.groups.find? g) ∧
      (create_group w h name).sent
        = w.sent ++ [(h, "Group '" ++ trim name ++ "' created & joined\n")]) := by
  constructor
  · intro hex
    have hc : w.groups.count (trim name) ≠ 0 := (UMap.key_count_ne_zero_iff _ _).2 hex
    simp only [create_group, hn, hc, if_false, if_true, ne_eq, not_false_eq_true]
    exact ⟨rfl, rfl⟩
  · intro hnew
    have hc : ¬ w.groups.count (trim name) ≠ 0 := fun hc =>
      hnew ((UMap.key_count_ne_zero_iff _ _).1 hc)
    simp only [create_group, hn, hc, if_false]
    refine ⟨⟨_, UMap.find?_subscript_self _ _ _, ?_⟩, ?_, rfl⟩
    · rw [UMap.read_of_not_mem _ _ hnew]
      exact USet.insert_empty h
    · intro g hg
      exact UMap.find?_subscript_ne _ _ _ _ hg

theorem create_group_spec_witness :
    trim " h " ≠ "" ∧ trim "g" ≠ "" ∧ trim "g" ∈ sampleWorld.groups.keys ∧
    trim " h " ∉ sampleWorld.groups.keys ∧
    ((create_group sampleWorld 6 "g").groups = sampleWorld.groups ∧
      (create_group sampleWorld 6 "g").sent
        = sampleWorld.sent ++ [(6, "Group '" ++ trim "g" ++ "' already exists\n")]) ∧
    ((∃ s, (create_group sampleWorld 6 " h ").groups.find? (trim " h ") = some s ∧
        s.elems = [6]) ∧
      (∀ g, g ≠ trim " h " →
        (create_group sampleWorld 6 " h ").groups.find? g = sampleWorld.groups.find? g) ∧
      (create_group sampleWorld 6 " h ").sent
        = sampleWorld.sent ++ [(6, "Group '" ++ trim " h " ++ "' created & joined\n")]) :=
  ⟨by decide, by decide, by decide, by decide,
    (create_group_spec sampleWorld 6 "g" (by decide)).1 (by decide),
    (create_group_spec sampleWorld 6 " h " (by decide)).2 (by decide)⟩

/-- C6: for a name whose trim `n` is not empty: when `n` is not a group,
`join_group(h, name)` leaves `groups` as it was (so `n` is still not a group) and its only
send is the line `[Error] Group '<n>' doesn't exist` to `h`; when `n` is a group with
member set `members`, afterwards the member set of `n` is `members` with `h` added, every
other name is bound as before, and the only send is the line `You joined the group '<n>'`
to `h`, whether or not `h` was a member before. -/
theorem join_group_spec (w : World) (h : Int) (name : String) (hn : trim name ≠ "") :
    (trim name ∉ w.groups.keys →
      (join_group w h name).groups = w.groups ∧
      (join_group w h name).sent
        = w.sent ++ [(h, "[Error] Group '" ++ trim name ++ "' doesn't exist\n")]) ∧
    (∀ members, w.groups.find? (trim name) = some members →
      (∃ s, (join_group w h name).groups.find? (trim name) = some s ∧
        ∀ x, x ∈ s.elems ↔ x ∈ members.elems ∨ x = h) ∧
      (∀ g, g ≠ trim name → (join_group w h name).groups.find? g = w.groups.find? g) ∧
      (join_group w h name).sent
        = w.sent ++ [(h, "You joined the group '" ++ trim name ++ "'\n")]) := by
  constructor
  · intro hnew
    have hc : w.groups.count (trim name) = 0 := (UMap.count_eq_zero_iff _ _).2 hnew
    simp only [join_group, hn, hc, if_false, if_true]
    exact ⟨rfl, rfl⟩
  · intro members hgrp
    have hc : ¬ w.groups.count (trim name) = 0 := UMap.count_ne_zero_of_find? _ _ _ hgrp
    simp only [join_group, hn, hc, if_false]
    refine ⟨⟨_, UMap.find?_subscript_self _ _ _, ?_⟩, ?_, rfl⟩
    · intro x
      rw [UMap.read_of_find? _ _ _ hgrp]
      exact USet.mem_insert members h x
    · intro g hg
      exact UMap.find?_subscript_ne _ _ _ _ hg

theorem join_group_spec_witness :
    trim "g" ≠ "" ∧ trim "x" ≠ "" ∧ trim "x" ∉ sampleWorld.groups.keys ∧
    sampleWorld.groups.find? (trim "g") = some ⟨[4, 5], by decide⟩ ∧
    ((join_group sampleWorld 4 "x").groups = sampleWorld.groups ∧
      (join_group sampleWorld 4 "x").sent
        = sampleWorld.sent ++ [(4, "[Error] Group '" ++ trim "x" ++ "' doesn't exist\n")]) ∧
    ((∃ s, (join_group sampleWorld 4 "g").groups.find? (trim "g") = some s ∧
        ∀ x, x ∈ s.elems ↔ x ∈ [4, 5] ∨ x = 4) ∧
      (∀ g, g ≠ trim "g" →
        (join_group sampleWorld 4 "g").groups.find? g = sampleWorld.groups.find? g) ∧
      (join_group sampleWorld 4 "g").sent
        = sampleWorld.sent ++ [(4, "You joined the group '" ++ trim "g" ++ "'\n")]) :=
  ⟨by decide, by decide, by decide, by decide,
    (join_group_spec sampleWorld 4 "x" (by decide)).1 (by decide),
    (join_group_spec sampleWorld 4 "g" (by decide)).2 ⟨[4, 5], by decide⟩ (by decide)⟩

/-- C7: for every registry, handle `h` and name: when the group named `trim name` does not
exist or `h` is not a member of it, `leave_group(h, name)` leaves `groups` as it was and
its only send is a failure line to `h` (the empty-name line or `Not in group '<trim name>'`);
otherwise, in a registry that has no group named by the empty string (the invariant of the
group registry), afterwards the member set of that group is the old one without `h`, every
other name is bound as before, and the only send is the line `Left group '<trim name>'` to
`h`. -/
theorem leave_group_spec (w : World) (h : Int) (name : String) :
    ((trim name ∉ w.groups.keys ∨ h ∉ (w.groups.read (trim name)).elems) →
      (leave_group w h name).groups = w.groups ∧
      ∃ line, (leave_group w h name).sent = w.sent ++ [(h, line)] ∧
        (line = "Group name cannot be empty or whitespace only.\n" ∨
         line = "Not in group '" ++ trim name ++ "'\n")) ∧
    ("" ∉ w.groups.keys →
      ∀ members, w.groups.find? (trim name) = some members → h ∈ members.elems →
      (∃ s, (leave_group w h name).groups.find? (trim name) = some s ∧
        ∀ x, x ∈ s.elems ↔ x ∈ members.elems ∧ x ≠ h) ∧
      (∀ g, g ≠ trim name → (leave_group w h name).groups.find? g = w.groups.find? g) ∧
      (leave_group w h name).sent = w.sent ++ [(h, "Left group '" ++ trim name ++ "'\n")]) := by
  constructor
  · intro hfail
    by_cases hn : trim name = ""
    · simp only [leave_group, hn, if_true]
      exact ⟨rfl, _, rfl, Or.inl rfl⟩
    · have hc : w.groups.count (trim name) = 0 ∨
          (w.groups.read (trim name)).count h = 0 := by
        rcases hfail with h1 | h1
        · exact Or.inl ((UMap.count_eq_zero_iff _ _).2 h1)
        · exact Or.inr ((USet.elem_count_eq_zero_iff _ _).2 h1)
      simp only [leave_group, hn, hc, if_false, if_true]
      exact ⟨rfl, _, rfl, Or.inr rfl⟩
  · intro hw members hgrp hmem
    have hn : trim name ≠ "" := fun hn =>
      hw (hn ▸ (UMap.mem_keys_iff _ _).2 ⟨members, hgrp⟩)
    have hread : w.groups.read (trim name) = members := UMap.read_of_find? _ _ _ hgrp
    have hc : ¬ (w.groups.count (trim name) = 0 ∨
        (w.groups.read (trim name)).count h = 0) := by
      rw [hread]
      rintro (h1 | h1)
      · exact UMap.count_ne_zero_of_find? _ _ _ hgrp h1
      · exact (USet.elem_count_ne_zero_iff _ _).2 hmem h1
    simp only [leave_group, hn, hc, if_false]
    refine ⟨⟨_, UMap.find?_subscript_self _ _ _, ?_⟩, ?_, rfl⟩
    · intro x
      rw [hread]
      exact USet.mem_erase members h x
    · intro g hg
      exact UMap.find?_subscript_ne _ _ _ _ hg

theorem leave_group_spec_witness :
    "" ∉ sampleWorld.groups.keys ∧
    (trim "g" ∉ sampleWorld.groups.keys ∨ (6 : Int) ∉ (sampleWorld.groups.read (trim "g")).elems) ∧
    sampleWorld.groups.find? (trim "g") = some ⟨[4, 5], by decide⟩ ∧ (4 : Int) ∈ [4, 5] ∧
    ((leave_group sampleWorld 6 "g").groups = sampleWorld.groups ∧
      ∃ line, (leave_group sampleWorld 6 "g").sent = sampleWorld.sent ++ [(6, line)] ∧
        (line = "Group name cannot be empty or whitespace only.\n" ∨
         line = "Not in group '" ++ trim "g" ++ "'\n")) ∧
    ((∃ s, (leave_group sampleWorld 4 "g").groups.find? (trim "g") = some s ∧
        ∀ x, x ∈ s.elems ↔ x ∈ [4, 5] ∧ x ≠ 4) ∧
      (∀ g, g ≠ trim "g" →
        (leave_group sampleWorld 4 "g").groups.find? g = sampleWorld.groups.find? g) ∧
      (leave_group sampleWorld 4 "g").sent
        = sampleWorld.sent ++ [(4, "Left group '" ++ trim "g" ++ "'\n")]) :=
  ⟨by decide, by decide, by decide, by decide,
    (leave_group_spec sampleWorld 6 "g").1 (by decide),
    (leave_group_spec sampleWorld 4 "g").2 (by decide) ⟨[4, 5], by decide⟩ (by decide)
      (by decide)⟩

/-- C8: a group is never deleted. For every handle `h` and every name `g` with a non-empty
trim that is not yet a group, after `create_group(h, g); join_group(h, g);
leave_group(h, g)` the group `trim g` is present with an empty member set, and a following
`join_group(h, g)` replies with the success line and makes `h` a member; and no run of
create, join, leave, group-message and disconnect-cleanup steps removes a group name that
was present before the run. -/
theorem group_never_deleted :
    (∀ (w : World) (h : Int) (g : String), trim g ≠ "" → trim g ∉ w.groups.keys →
      (∃ s, (leave_group (join_group (create_group w h g) h g) h g).groups.find? (trim g)
          = some s ∧ s.elems = []) ∧
      (∃ s, (join_group (leave_group (join_group (create_group w h g) h g) h g) h g).groups.find?
          (trim g) = some s ∧ h ∈ s.elems) ∧
      (join_group (leave_group (join_group (create_group w h g) h g) h g) h g).sent
        = (leave_group (join_group (create_group w h g) h g) h g).sent
            ++ [(h, "You joined the group '" ++ trim g ++ "'\n")]) ∧
    (∀ (w : World) (steps : List Step) (w1 : World), run w steps = some w1 →
      ∀ g, g ∈ w.groups.keys → g ∈ w1.groups.keys) := by
  refine ⟨?_, fun w steps w1 hrun g hg => run_keeps_group_names steps w w1 hrun g hg⟩
  intro w h g hn hnew
  have h1 : (create_group w h g).groups
      = w.groups.subscript (trim g) (fun s => s.insert h) := by
    rw [create_group_groups]
    simp [hn, hnew]
  have h2 : (join_group (create_group w h g) h g).groups
      = (w.groups.subscript (trim g) (fun s => s.insert h)).subscript (trim g)
          (fun s => s.insert h) := by
    rw [join_group_groups, h1]
    simp [hn, UMap.mem_keys_subscript_self]
  have hread2 : (join_group (create_group w h g) h g).groups.read (trim g)
      = ((default : USet).insert h).insert h := by
    rw [h2, UMap.read_subscript_self, UMap.read_subscript_self, UMap.read_of_not_mem _ _ hnew]
  have hmem2 : h ∈ ((join_group (create_group w h g) h g).groups.read (trim g)).elems := by
    rw [hread2]
    exact (USet.mem_insert _ _ _).2 (Or.inr rfl)
  have hkey2 : trim g ∈ (join_group (create_group w h g) h g).groups.keys := by
    rw [h2]
    exact UMap.mem_keys_subscript_self _ _ _
  have h3 : (leave_group (join_group (create_group w h g) h g) h g).groups
      = (join_group (create_group w h g) h g).groups.subscript (trim g)
          (fun s => s.erase h) := by
    rw [leave_group_groups]
    simp [hn, hkey2, hmem2]
  have hkey3 : trim g ∈ (leave_group (join_group (create_group w h g) h g) h g).groups.keys := by
    rw [h3]
    exact UMap.mem_keys_subscript_self _ _ _
  have hf3 : (leave_group (join_group (create_group w h g) h g) h g).groups.find? (trim g)
      = some ((((default : USet).insert h).insert h).erase h) := by
    rw [h3, UMap.find?_subscript_self, hread2]
  have hf4 : (join_group (leave_group (join_group (create_group w h g) h g) h g) h g).groups.find?
      (trim g) = some (((leave_group (join_group (create_group w h g) h g) h g).groups.read
        (trim g)).insert h) := by
    rw [join_group_eq _ h g hn hkey3]
    exact UMap.find?_subscript_self _ _ _
  have hs4 : (join_group (leave_group (join_group (create_group w h g) h g) h g) h g).sent
      = (leave_group (join_group (create_group w h g) h g) h g).sent
          ++ [(h, "You joined the group '" ++ trim g ++ "'\n")] := by
    rw [join_group_eq _ h g hn hkey3]
    rfl
  exact ⟨⟨_, hf3, USet.erase_insert_twice_empty h⟩,
    ⟨_, hf4, (USet.mem_insert _ _ _).2 (Or.inr rfl)⟩, hs4⟩

theorem group_never_deleted_witness :
    trim "h" ≠ "" ∧ trim "h" ∉ sampleWorld.groups.keys ∧
    run sampleWorld [Step.leave 4 "g", Step.leave 5 "g", Step.disconnect 4 "alice"]
      = some (handle_client_cleanup (leave_group (leave_group sampleWorld 4 "g") 5 "g") 4 "alice") ∧
    "g" ∈ sampleWorld.groups.keys ∧
    (∃ s, (leave_group (join_group (create_group sampleWorld 6 "h") 6 "h") 6 "h").groups.find?
        (trim "h") = some s ∧ s.elems = []) ∧
    "g" ∈ (handle_client_cleanup (leave_group (leave_group sampleWorld 4 "g") 5 "g")
        4 "alice").groups.keys :=
  ⟨by decide, by decide, by decide, by decide,
    (group_never_deleted.1 sampleWorld 6 "h" (by decide) (by decide)).1,
    group_never_deleted.2 sampleWorld
      [Step.leave 4 "g", Step.leave 5 "g", Step.disconnect 4 "alice"] _ (by decide) "g"
      (by decide)⟩

/-- C9: for every state and every handle `h` registered with username `u`, after the
cleanup sequence of `handle_client` has run for `h`: `h` is not in `clients`; every other
handle is bound as before; the group names are the same and the member set of every group
is the old one without `h` (so `h` is in no group and every other membership is as before);
and the line `"** " + u + " left the chat server **\n"` is sent exactly once to every
handle that is still registered and nothing else is sent. -/
theorem handle_client_cleanup_spec (w : World) (h : Int) (u : String)
    (_hreg : w.clients.find? h = some u) :
    (handle_client_cleanup w h u).clients.find? h = none ∧
    (∀ x, x ≠ h → (handle_client_cleanup w h u).clients.find? x = w.clients.find? x) ∧
    (∀ g, g ∈ (handle_client_cleanup w h u).groups.keys ↔ g ∈ w.groups.keys) ∧
    (∀ g s, w.groups.find? g = some s →
      ∃ s1, (handle_client_cleanup w h u).groups.find? g = some s1 ∧
        ∀ x, x ∈ s1.elems ↔ x ∈ s.elems ∧ x ≠ h) ∧
    (∀ g s1, (handle_client_cleanup w h u).groups.find? g = some s1 → h ∉ s1.elems) ∧
    ∃ d, (handle_client_cleanup w h u).sent = w.sent ++ d ∧
      ∀ (x : Int) (t : String),
        timesSent d x t =
          if x ∈ (handle_client_cleanup w h u).clients.keys ∧
              t = "** " ++ u ++ " left the chat server **\n"
          then 1 else 0 := by
  rw [handle_client_cleanup_eq]
  refine ⟨UMap.find?_erase_self _ _, fun x hx => UMap.find?_erase_ne _ _ _ hx, ?_, ?_, ?_,
    _, rfl, ?_⟩
  · intro g
    simp only [UMap.keys_mapValues]
  · intro g s hs
    refine ⟨s.erase h, ?_, fun x => USet.mem_erase s h x⟩
    simp only [UMap.find?_mapValues, hs, Option.map_some']
  · intro g s1 hs1
    simp only [UMap.find?_mapValues, Option.map_eq_some'] at hs1
    obtain ⟨s, _, rfl⟩ := hs1
    exact fun hmem => ((USet.mem_erase s h h).1 hmem).2 rfl
  · intro x t
    have hnd : (w.clients.erase h).keys.Nodup := (w.clients.erase h).nodup
    rw [timesSent_loop _ h _ hnd x t]
    have hx : x ∈ (w.clients.erase h).keys → x ≠ h := fun hm =>
      ((UMap.mem_keys_erase _ _ _).1 hm).2
    by_cases hm : x ∈ (w.clients.erase h).keys
    · simp [hm, hx hm]
    · simp [hm]

theorem handle_client_cleanup_spec_witness :
    sampleWorld.clients.find? 4 = some "alice" ∧
    (handle_client_cleanup sampleWorld 4 "alice").clients.find? 4 = none ∧
    (handle_client_cleanup sampleWorld 4 "alice").sent
      = [(5, "** alice left the chat server **\n"), (6, "** alice left the chat server **\n")] :=
  ⟨by decide, (handle_client_cleanup_spec sampleWorld 4 "alice" (by decide)).1, by decide⟩

/-- C10: `handle_client` registers the connection exactly when both handshake reads
succeed, the trimmed username is a key of `users` and the trimmed password equals the
stored one. In that case, once the two reads are consumed, `clients` binds the socket to
the trimmed username, every other binding and `groups` are as before and the socket is not
closed. In every other case (first read failed; second read failed; unknown user or wrong
password), whatever would be read later, `handle_client` returns with `clients` and
`groups` as before, every send it made went to the connecting socket only, and the socket
is closed. -/
theorem handle_client_handshake (w : World) (client_socket : Int) (r1 r2 : Recv)
    (rest : List Recv) :
    ((0 < r1.bytes ∧ 0 < r2.bytes ∧ trim r1.text ∈ w.users.keys ∧
        w.users.read (trim r1.text) = trim r2.text) →
      ∃ w1, handle_client w client_socket [r1, r2] = some w1 ∧
        w1.clients.find? client_socket = some (trim r1.text) ∧
        (∀ x, x ≠ client_socket → w1.clients.find? x = w.clients.find? x) ∧
        w1.groups = w.groups ∧ w1.closed = w.closed) ∧
    (r1.bytes ≤ 0 →
      ∃ w1, handle_client w client_socket (r1 :: rest) = some w1 ∧
        w1.clients = w.clients ∧ w1.groups = w.groups ∧
        w1.closed = w.closed ++ [client_socket] ∧
        ∃ d, w1.sent = w.sent ++ d ∧ ∀ p ∈ d, p.1 = client_socket) ∧
    (¬ (0 < r1.bytes ∧ 0 < r2.bytes ∧ trim r1.text ∈ w.users.keys ∧
        w.users.read (trim r1.text) = trim r2.text) →
      ∃ w1, handle_client w client_socket (r1 :: r2 :: rest) = some w1 ∧
        w1.clients = w.clients ∧ w1.groups = w.groups ∧
        w1.closed = w.closed ++ [client_socket] ∧
        ∃ d, w1.sent = w.sent ++ d ∧ ∀ p ∈ d, p.1 = client_socket) := by
  have hfirst : ∀ l, r1.bytes ≤ 0 →
      ∃ w1, handle_client w client_socket (r1 :: l) = some w1 ∧
        w1.clients = w.clients ∧ w1.groups = w.groups ∧
        w1.closed = w.closed ++ [client_socket] ∧
        ∃ d, w1.sent = w.sent ++ d ∧ ∀ p ∈ d, p.1 = client_socket := by
    intro l hb
    refine ⟨close (send_message w client_socket "Username: ") client_socket, ?_, rfl, rfl, rfl,
      [(client_socket, "Username: ")], rfl, ?_⟩
    · simp only [handle_client, hb, if_true]
    · intro p hp
      rw [List.mem_singleton] at hp
      rw [hp]
  refine ⟨?_, hfirst rest, ?_⟩
  · rintro ⟨hb1, hb2, hkey, hpw⟩
    have hc : ¬ (w.users.count (trim r1.text) = 0 ∨ w.users.read (trim r1.text) ≠ trim r2.text) := by
      rintro (h0 | h0)
      · exact (UMap.count_eq_zero_iff _ _).1 h0 hkey
      · exact h0 hpw
    have hrun : handle_client w client_socket [r1, r2]
        = some (broadcast_message
            (send_message
              { send_message (send_message w client_socket "Username: ") client_socket
                  "Password: " with
                clients := w.clients.subscript client_socket (fun _ => trim r1.text) }
              client_socket ("\nWelcome to the Chat Server!\n" ++ "(use /help for commands)"))
            ("*** " ++ trim r1.text ++ " joined the chat ***\n") client_socket) := by
      simp only [handle_client, not_le.2 hb1, not_le.2 hb2, if_false, handle_client_loop]
      exact if_neg hc
    rw [broadcast_message_eq] at hrun
    exact ⟨_, hrun, UMap.find?_subscript_self _ _ _,
      fun x hx => UMap.find?_subscript_ne _ _ _ _ hx, rfl, rfl⟩
  · intro hfail
    by_cases hb1 : r1.bytes ≤ 0
    · exact hfirst (r2 :: rest) hb1
    · by_cases hb2 : r2.bytes ≤ 0
      · refine ⟨close (send_message (send_message w client_socket "Username: ") client_socket
          "Password: ") client_socket, ?_, rfl, rfl, rfl,
          [(client_socket, "Username: "), (client_socket, "Password: ")], ?_, ?_⟩
        · simp only [handle_client, hb1, hb2, if_true, if_false]
        · simp [close, send_message]
        · intro p hp
          simp only [List.mem_cons, List.mem_singleton, List.not_mem_nil, or_false] at hp
          rcases hp with hp | hp <;> rw [hp]
      · have hc : w.users.count (trim r1.text) = 0 ∨
            w.users.read (trim r1.text) ≠ trim r2.text := by
          by_cases hkey : trim r1.text ∈ w.users.keys
          · right
            intro hpw
            exact hfail ⟨not_le.1 hb1, not_le.1 hb2, hkey, hpw⟩
          · exact Or.inl ((UMap.count_eq_zero_iff _ _).2 hkey)
        refine ⟨close (send_message (send_message (send_message w client_socket "Username: ")
          client_socket "Password: ") client_socket "Authentication failed\n") client_socket,
          ?_, rfl, rfl, rfl,
          [(client_socket, "Username: "), (client_socket, "Password: "),
            (client_socket, "Authentication failed\n")], ?_, ?_⟩
        · simp only [handle_client, hb1, hb2, if_false]
          exact if_pos hc
        · simp [close, send_message]
        · intro p hp
          simp only [List.mem_cons, List.mem_singleton, List.not_mem_nil, or_false] at hp
          rcases hp with hp | hp | hp <;> rw [hp]

theorem handle_client_handshake_witness :
    ((0 : Int) < 6 ∧ (0 : Int) < 4 ∧ trim "alice\n" ∈ sampleWorld.users.keys ∧
      sampleWorld.users.read (trim "alice\n") = trim "pw1\n") ∧
    ¬ ((0 : Int) < 6 ∧ (0 : Int) < 4 ∧ trim "alice\n" ∈ sampleWorld.users.keys ∧
      sampleWorld.users.read (trim "alice\n") = trim "pw2\n") ∧
    (∃ w1, handle_client sampleWorld 7 [⟨6, "alice\n"⟩, ⟨4, "pw1\n"⟩] = some w1 ∧
      w1.clients.find? 7 = some (trim (Recv.text ⟨6, "alice\n"⟩)) ∧
      (∀ x, x ≠ 7 → w1.clients.find? x = sampleWorld.clients.find? x) ∧
      w1.groups = sampleWorld.groups ∧ w1.closed = sampleWorld.closed) ∧
    (∃ w1, handle_client sampleWorld 7 [⟨0, ""⟩] = some w1 ∧
      w1.clients = sampleWorld.clients ∧ w1.groups = sampleWorld.groups ∧
      w1.closed = sampleWorld.closed ++ [7] ∧
      ∃ d, w1.sent = sampleWorld.sent ++ d ∧ ∀ p ∈ d, p.1 = 7) ∧
    (∃ w1, handle_client sampleWorld 7 [⟨6, "alice\n"⟩, ⟨4, "pw2\n"⟩, ⟨5, "/help"⟩] = some w1 ∧
      w1.clients = sampleWorld.clients ∧ w1.groups = sampleWorld.groups ∧
      w1.closed = sampleWorld.closed ++ [7] ∧
      ∃ d, w1.sent = sampleWorld.sent ++ d ∧ ∀ p ∈ d, p.1 = 7) :=
  ⟨by decide, by decide,
    (handle_client_handshake sampleWorld 7 ⟨6, "alice\n"⟩ ⟨4, "pw1\n"⟩ []).1 (by decide),
    (handle_client_handshake sampleWorld 7 ⟨0, ""⟩ ⟨0, ""⟩ []).2.1 (by decide),
    (handle_client_handshake sampleWorld 7 ⟨6, "alice\n"⟩ ⟨4, "pw2\n"⟩ [⟨5, "/help"⟩]).2.2
      (by decide)⟩

/-- C11: after any finite sequence of `register` (`clients[h] = username`) and `unregister`
(`clients.erase(h)`) steps from the empty registry, a handle is a key exactly when its
last step in the sequence is a `register`, it is then bound to the username of that
`register`, no handle occurs twice among the keys, and `unregister` of a handle that is
not a key leaves the registry as it was. -/
theorem session_registry_spec (steps : List RegStep) :
    (∀ h, h ∈ (regRun UMap.empty steps).keys ↔
      ∃ username, lastStepOf steps h = some (RegStep.register h username)) ∧
    (∀ h, (regRun UMap.empty steps).find? h = expectedBinding steps h) ∧
    (regRun UMap.empty steps).keys.Nodup ∧
    (∀ h, h ∉ (regRun UMap.empty steps).keys →
      regStep (regRun UMap.empty steps) (RegStep.unregister h) = regRun UMap.empty steps) := by
  refine ⟨?_, regRun_find? steps, (regRun UMap.empty steps).nodup,
    fun h hh => UMap.erase_of_not_mem _ h hh⟩
  intro h
  rw [UMap.mem_keys_iff]
  simp only [regRun_find?, expectedBinding]
  have hhandle : ∀ s, lastStepOf steps h = some s → s.handle = h := by
    intro s hs
    have := List.find?_some hs
    simpa using this
  cases hl : lastStepOf steps h with
  | none => simp
  | some s =>
    have hs := hhandle s hl
    cases s with
    | register h1 u1 =>
      simp only [RegStep.handle] at hs
      subst hs
      simp
    | unregister h1 => simp

theorem session_registry_spec_witness :
    (5 : Int) ∉ (regRun UMap.empty [RegStep.register 1 "a", RegStep.register 2 "b",
      RegStep.unregister 1, RegStep.register 2 "c"]).keys ∧
    regStep (regRun UMap.empty [RegStep.register 1 "a", RegStep.register 2 "b",
        RegStep.unregister 1, RegStep.register 2 "c"]) (RegStep.unregister 5)
      = regRun UMap.empty [RegStep.register 1 "a", RegStep.register 2 "b",
        RegStep.unregister 1, RegStep.register 2 "c"] ∧
    (regRun UMap.empty [RegStep.register 1 "a", RegStep.register 2 "b",
      RegStep.unregister 1, RegStep.register 2 "c"]).keys = [2] :=
  ⟨by decide,
    (session_registry_spec [RegStep.register 1 "a", RegStep.register 2 "b",
      RegStep.unregister 1, RegStep.register 2 "c"]).2.2.2 5 (by decide),
    by decide⟩

/-- C13: for a name with a non-empty trim that is not yet a group, the group registry after
`create_group(h, name)` followed by `join_group(h, name)` equals the group registry after
`create_group(h, name)` alone. -/
theorem create_then_join (w : World) (h : Int) (name : String) (hn : trim name ≠ "")
    (hnew : trim name ∉ w.groups.keys) :
    (join_group (create_group w h name) h name).groups = (create_group w h name).groups := by
  have h1 : (create_group w h name).groups
      = w.groups.subscript (trim name) (fun s => s.insert h) := by
    rw [create_group_groups]
    simp [hn, hnew]
  rw [join_group_groups, h1]
  have hkey : trim name ∈ (w.groups.subscript (trim name) (fun s => s.insert h)).keys :=
    UMap.mem_keys_subscript_self _ _ _
  simp only [hn, hkey, not_true_eq_false, or_self, if_false]
  apply UMap.subscript_of_fixed _ _ _ hkey
  rw [UMap.read_subscript_self]
  exact USet.insert_of_mem _ h ((USet.mem_insert _ _ _).2 (Or.inr rfl))

theorem create_then_join_witness :
    trim " h " ≠ "" ∧ trim " h " ∉ sampleWorld.groups.keys ∧
    (join_group (create_group sampleWorld 6 " h ") 6 " h ").groups
      = (create_group sampleWorld 6 " h ").groups :=
  ⟨by decide, by decide, create_then_join sampleWorld 6 " h " (by decide) (by decide)⟩

/-- C12: for every name made only of the characters space, tab, CR and LF (the empty name
included), each of `create_group`, `join_group` and `leave_group` sends exactly the line
`Group name cannot be empty or whitespace only.` to the caller and leaves `groups` as it
was; and for every name each of the three functions does on `name` exactly what it does on
`trim(name)`. -/
theorem blank_group_name_rejected (w : World) (h : Int) (name : String) :
    ((∀ c ∈ name.data, c = ' ' ∨ c = '\t' ∨ c = '\r' ∨ c = '\n') →
      ((create_group w h name).groups = w.groups ∧
        (create_group w h name).sent
          = w.sent ++ [(h, "Group name cannot be empty or whitespace only.\n")]) ∧
      ((join_group w h name).groups = w.groups ∧
        (join_group w h name).sent
          = w.sent ++ [(h, "Group name cannot be empty or whitespace only.\n")]) ∧
      ((leave_group w h name).groups = w.groups ∧
        (leave_group w h name).sent
          = w.sent ++ [(h, "Group name cannot be empty or whitespace only.\n")])) ∧
    (create_group w h name = create_group w h (trim name) ∧
      join_group w h name = join_group w h (trim name) ∧
      leave_group w h name = leave_group w h (trim name)) := by
  constructor
  · intro hblank
    have hn : trim name = "" :=
      (trim_eq_empty_iff name).2 (fun c hc => (isTrimChar_iff c).2 (hblank c hc))
    simp only [create_group, join_group, leave_group, hn, if_true]
    exact ⟨⟨rfl, rfl⟩, ⟨rfl, rfl⟩, ⟨rfl, rfl⟩⟩
  · simp only [create_group, join_group, leave_group, trim_idem]
    exact ⟨trivial, trivial, trivial⟩

theorem blank_group_name_rejected_witness :
    (∀ c ∈ (" \t\r\n" : String).data, c = ' ' ∨ c = '\t' ∨ c = '\r' ∨ c = '\n') ∧
    (((create_group sampleWorld 4 " \t\r\n").groups = sampleWorld.groups ∧
        (create_group sampleWorld 4 " \t\r\n").sent
          = sampleWorld.sent ++ [(4, "Group name cannot be empty or whitespace only.\n")]) ∧
      ((join_group sampleWorld 4 " \t\r\n").groups = sampleWorld.groups ∧
        (join_group sampleWorld 4 " \t\r\n").sent
          = sampleWorld.sent ++ [(4, "Group name cannot be empty or whitespace only.\n")]) ∧
      ((leave_group sampleWorld 4 " \t\r\n").groups = sampleWorld.groups ∧
        (leave_group sampleWorld 4 " \t\r\n").sent
          = sampleWorld.sent ++ [(4, "Group name cannot be empty or whitespace only.\n")])) :=
  ⟨by decide, (blank_group_name_rejected sampleWorld 4 " \t\r\n").1 (by decide)⟩

/-- C14, as stated, fails: in `sampleWorld` the handle 4 is registered as "alice", so
`private_message(4, "alice", "alice", "hi")` finds the recipient, and the line is sent to
the sender handle 4 itself. -/
theorem private_message_self_counterexample :
    (∃ e ∈ sampleWorld.clients.entries, e.2 = "alice") ∧
    (private_message sampleWorld 4 "alice" "alice" "hi").sent
      = sampleWorld.sent ++ [(4, "[Private] alice: hi\n")] := by
  decide

/-- C14, amended: whenever some registered session has the recipient name,
`private_message` makes exactly one send, the private line, to a handle registered under
the recipient name; hence no line is sent to the sender handle unless the sender handle is
itself registered under the recipient name. -/
theorem private_message_found (w : World) (sender_socket : Int)
    (sender recipient text : String) (hfound : ∃ e ∈ w.clients.entries, e.2 = recipient) :
    ∃ h, w.clients.find? h = some recipient ∧
      (private_message w sender_socket sender recipient text).sent
        = w.sent ++ [(h, "[Private] " ++ sender ++ ": " ++ text ++ "\n")] ∧
      (w.clients.find? sender_socket ≠ some recipient → h ≠ sender_socket) := by
  obtain ⟨e, he, her, hscan⟩ :=
    private_message_scan_found sender recipient text w.clients.entries w hfound
  have hfind : w.clients.find? e.1 = some recipient := by
    rw [UMap.find?_eq_some_iff, ← her]
    exact he
  have hsent : (private_message w sender_socket sender recipient text).sent
      = w.sent ++ [(e.1, "[Private] " ++ sender ++ ": " ++ text ++ "\n")] := by
    simp only [private_message, hscan, send_message]
    rfl
  exact ⟨e.1, hfind, hsent, fun hne heq => hne (heq ▸ hfind)⟩

theorem private_message_found_witness :
    (∃ e ∈ sampleWorld.clients.entries, e.2 = "bob") ∧
    ∃ h, sampleWorld.clients.find? h = some "bob" ∧
      (private_message sampleWorld 4 "alice" "bob" "hi").sent
        = sampleWorld.sent ++ [(h, "[Private] " ++ "alice" ++ ": " ++ "hi" ++ "\n")] ∧
      (sampleWorld.clients.find? 4 ≠ some "bob" → h ≠ 4) :=
  ⟨by decide, private_message_found sampleWorld 4 "alice" "bob" "hi" (by decide)⟩

/-- C15, evaluated on the code: when a registered connection receives the line `/exit`,
the command loop of `handle_client` answers with the unknown-command line and goes on with
the next `recv`; the loop does not end and the cleanup does not run. So after the login of
"alice" on socket 7 and the line `/exit`, socket 7 is still registered and not closed. -/
theorem exit_line_not_handled :
    (∀ (w : World) (client_socket : Int) (username : String) (rest : List Recv),
      handle_client_loop client_socket username (⟨6, "/exit\n"⟩ :: rest) w
        = handle_client_loop client_socket username rest
            (send_message w client_socket
              "Unknown command or Error in the command. Use /help for commands\n")) ∧
    (handle_client sampleWorld 7 [⟨6, "alice\n"⟩, ⟨4, "pw1\n"⟩, ⟨6, "/exit\n"⟩]).map
        (fun w1 => (w1.clients.find? 7, w1.closed, w1.sent.getLast?))
      = some (some "alice", [],
          some (7, "Unknown command or Error in the command. Use /help for commands\n")) := by
  refine ⟨?_, by decide⟩
  intro w client_socket username rest
  have htrim : trim (Recv.text ⟨6, "/exit\n"⟩) = "/exit" := by decide
  have hcmd : handle_client_command w client_socket username "/exit"
      = some (send_message w client_socket
          "Unknown command or Error in the command. Use /help for commands\n") := by
    have h1 : rfind0 "/exit" "/broadcast " = false := by decide
    have h2 : rfind0 "/exit" "/msg " = false := by decide
    have h3 : rfind0 "/exit" "/create_group " = false := by decide
    have h4 : rfind0 "/exit" "/join_group " = false := by decide
    have h5 : rfind0 "/exit" "/leave_group " = false := by decide
    have h6 : rfind0 "/exit" "/group_msg " = false := by decide
    have h7 : rfind0 "/exit" "/help" = false := by decide
    simp only [handle_client_command, h1, h2, h3, h4, h5, h6, h7, Bool.false_eq_true, if_false]
  have hne : ¬ ("/exit" : String) = "" := by decide
  have hb : ¬ ((6 : Int) ≤ 0) := by decide
  rw [handle_client_loop]
  simp only [hb, if_false, htrim, hne, hcmd]

/-- C16, as stated, fails: the line `alice:` contains ':' and is a line of the file
`alice:\n`, yet `load_users` adds no entry for it (the second `getline` extracts nothing
and fails), so the store has no entry for "alice" where the claim expects the empty
password. -/
theorem load_users_colon_last_counterexample :
    ':' ∈ ("alice:" : String).data ∧ "alice:" ∈ fileLines "alice:\n" ∧
    load_users emptyWorld (some "alice:\n") = some emptyWorld ∧
    (load_users_line emptyWorld "alice:").users.find? (trim "alice") ≠ some (trim "") := by
  decide

/-- C16, amended: `load_users` treats the lines of the file one after the other, each as
follows: a line without ':' leaves the store as it was; a line with at least one character
after its first ':' sets the entry for `trim(text before the first ':')` to
`trim(text after the first ':')` and leaves every other entry; a line whose first ':' is
its last character leaves the store as it was. -/
theorem load_users_spec :
    (∀ (w : World) (content : String),
      load_users w (some content) = some ((fileLines content).foldl load_users_line w)) ∧
    (∀ (content : String), ∀ line ∈ fileLines content, '\n' ∉ line.data) ∧
    (∀ (w : World) (line : String), ':' ∉ line.data → load_users_line w line = w) ∧
    (∀ (w : World) (before after : List Char), ':' ∉ before → '\n' ∉ after → after ≠ [] →
      (load_users_line w ⟨before ++ ':' :: after⟩).users.find? (trim ⟨before⟩)
        = some (trim ⟨after⟩) ∧
      ∀ k, k ≠ trim ⟨before⟩ →
        (load_users_line w ⟨before ++ ':' :: after⟩).users.find? k = w.users.find? k) ∧
    (∀ (w : World) (before : List Char), ':' ∉ before →
      load_users_line w ⟨before ++ [':']⟩ = w) := by
  refine ⟨?_, ?_, load_users_line_no_colon, ?_, load_users_line_colon_last⟩
  · intro w content
    simp only [load_users, fileLines]
    rw [load_users_loop_eq _ _ _ _ (Nat.le_refl _)]
  · intro content line hline
    exact fileLinesFrom_no_newline [] content.data (by simp) line hline
  · intro w before after h hnl hne
    rw [load_users_line_entry w before after h hnl hne]
    exact ⟨UMap.find?_subscript_self _ _ _, fun k hk => UMap.find?_subscript_ne _ _ _ _ hk⟩

theorem load_users_spec_witness :
    ':' ∉ ("no delimiter" : String).data ∧ ':' ∉ ("bob " : String).data ∧
    '\n' ∉ (" pw \r" : String).data ∧ (" pw \r" : String).data ≠ [] ∧
    load_users_line sampleWorld "no delimiter" = sampleWorld ∧
    ((load_users_line sampleWorld ⟨("bob " : String).data ++ ':' :: (" pw \r" : String).data⟩
        ).users.find? (trim ⟨("bob " : String).data⟩) = some (trim ⟨(" pw \r" : String).data⟩) ∧
      ∀ k, k ≠ trim ⟨("bob " : String).data⟩ →
        (load_users_line sampleWorld
          ⟨("bob " : String).data ++ ':' :: (" pw \r" : String).data⟩).users.find? k
          = sampleWorld.users.find? k) ∧
    load_users_line sampleWorld ⟨("alice" : String).data ++ [':']⟩ = sampleWorld :=
  ⟨by decide, by decide, by decide, by decide,
    load_users_spec.2.2.1 sampleWorld "no delimiter" (by decide),
    load_users_spec.2.2.2.1 sampleWorld ("bob " : String).data (" pw \r" : String).data
      (by decide) (by decide) (by decide),
    load_users_spec.2.2.2.2 sampleWorld ("alice" : String).data (by decide)⟩

/-- C17, as stated, fails: for the name `a\nb`, which `trim` leaves as it is,
`create_group` passes to `send_message` a text with two line feeds. -/
theorem sent_text_two_lines_counterexample :
    (create_group sampleWorld 4 "a\nb").sent
      = sampleWorld.sent ++ [(4, "Group 'a\nb' created & joined\n")] ∧
    ("Group 'a\nb' created & joined\n" : String).data.count '\n' = 2 := by
  decide

/-- C17, amended: every text that `private_message`, `create_group`, `join_group`,
`leave_group` and `group_message` pass to `send_message` ends with a line feed; and it
contains no other line feed whenever the names and texts put into it (sender and recipient
name and message of `private_message`; the trimmed group name; for `group_message` also
the registered username of the sender and the trimmed message) contain no line feed. -/
theorem sent_text_lines :
    (∀ (w : World) (sender_socket : Int) (sender recipient message : String),
      ∃ d, (private_message w sender_socket sender recipient message).sent = w.sent ++ d ∧
        ∀ p ∈ d, p.2.data.getLast? = some '\n' ∧
          ('\n' ∉ sender.data → '\n' ∉ recipient.data → '\n' ∉ message.data →
            p.2.data.count '\n' = 1)) ∧
    (∀ (w : World) (h : Int) (name : String),
      ∃ d, (create_group w h name).sent = w.sent ++ d ∧
        ∀ p ∈ d, p.2.data.getLast? = some '\n' ∧
          ('\n' ∉ (trim name).data → p.2.data.count '\n' = 1)) ∧
    (∀ (w : World) (h : Int) (name : String),
      ∃ d, (join_group w h name).sent = w.sent ++ d ∧
        ∀ p ∈ d, p.2.data.getLast? = some '\n' ∧
          ('\n' ∉ (trim name).data → p.2.data.count '\n' = 1)) ∧
    (∀ (w : World) (h : Int) (name : String),
      ∃ d, (leave_group w h name).sent = w.sent ++ d ∧
        ∀ p ∈ d, p.2.data.getLast? = some '\n' ∧
          ('\n' ∉ (trim name).data → p.2.data.count '\n' = 1)) ∧
    (∀ (w w1 : World) (h : Int) (name text : String),
      group_message w h name text = some w1 →
      ∃ d, w1.sent = w.sent ++ d ∧
        ∀ p ∈ d, p.2.data.getLast? = some '\n' ∧
          ('\n' ∉ (trim name).data → '\n' ∉ (trim text).data →
            (∀ u, w.clients.find? h = some u → '\n' ∉ u.data) →
            p.2.data.count '\n' = 1)) := by
  have hfixed : ("Group name cannot be empty or whitespace only.\n" : String).data.getLast?
        = some '\n' ∧
      ("Group name cannot be empty or whitespace only.\n" : String).data.count '\n' = 1 := by
    decide
  refine ⟨?_, ?_, ?_, ?_, ?_⟩
  · intro w sender_socket sender recipient message
    obtain ⟨h, line, hsent, hline⟩ := private_message_sent w sender_socket sender recipient message
    refine ⟨_, hsent, fun p hp => ?_⟩
    rw [List.mem_singleton.1 hp]
    rcases hline with rfl | rfl
    · have := private_line "[Private] " sender ": " message (by decide) (by decide)
      exact ⟨this.1, fun hs _ hm => this.2 hs hm⟩
    · have := reply_line "User '" recipient "' not found\n" (by decide) (by decide) (by decide)
      exact ⟨this.1, fun _ hr _ => this.2 hr⟩
  · intro w h name
    obtain ⟨line, hsent, hline⟩ := create_group_sent w h name
    refine ⟨_, hsent, fun p hp => ?_⟩
    rw [List.mem_singleton.1 hp]
    rcases hline with rfl | rfl | rfl
    · exact ⟨hfixed.1, fun _ => hfixed.2⟩
    · exact reply_line "Group '" (trim name) "' already exists\n" (by decide) (by decide)
        (by decide)
    · exact reply_line "Group '" (trim name) "' created & joined\n" (by decide) (by decide)
        (by decide)
  · intro w h name
    obtain ⟨line, hsent, hline⟩ := join_group_sent w h name
    refine ⟨_, hsent, fun p hp => ?_⟩
    rw [List.mem_singleton.1 hp]
    rcases hline with rfl | rfl | rfl
    · exact ⟨hfixed.1, fun _ => hfixed.2⟩
    · exact reply_line "[Error] Group '" (trim name) "' doesn't exist\n" (by decide)
        (by decide) (by decide)
    · exact reply_line "You joined the group '" (trim name) "'\n" (by decide) (by decide)
        (by decide)
  · intro w h name
    obtain ⟨line, hsent, hline⟩ := leave_group_sent w h name
    refine ⟨_, hsent, fun p hp => ?_⟩
    rw [List.mem_singleton.1 hp]
    rcases hline with rfl | rfl | rfl
    · exact ⟨hfixed.1, fun _ => hfixed.2⟩
    · exact reply_line "Not in group '" (trim name) "'\n" (by decide) (by decide) (by decide)
    · exact reply_line "Left group '" (trim name) "'\n" (by decide) (by decide) (by decide)
  · intro w w1 h name text hrun
    obtain ⟨d, hsent, hd⟩ := group_message_sent w w1 h name text hrun
    refine ⟨d, hsent, fun p hp => ?_⟩
    rcases hd p hp with hp2 | hp2 | hp2 | ⟨u, hu, hp2⟩
    · rw [hp2]
      exact ⟨by decide, fun _ _ _ => by decide⟩
    · rw [hp2]
      have := reply_line "Group '" (trim name) "' doesn't exist\n" (by decide) (by decide)
        (by decide)
      exact ⟨this.1, fun hn _ _ => this.2 hn⟩
    · rw [hp2]
      have := reply_line "You're not in group '" (trim name) "'\n" (by decide) (by decide)
        (by decide)
      exact ⟨this.1, fun hn _ _ => this.2 hn⟩
    · rw [hp2]
      have := message_line "[Group " (trim name) "] " u ": " (trim text) (by decide)
        (by decide) (by decide)
      exact ⟨this.1, fun hn ht hreg => this.2 hn (hreg u hu) ht⟩

theorem sent_text_lines_witness :
    '\n' ∉ (trim " h ").data ∧
    group_message sampleWorld 4 "g" " hi \n"
      = some { sampleWorld with sent := [(5, "[Group g] alice: hi\n")] } ∧
    (∃ d, (create_group sampleWorld 6 " h ").sent = sampleWorld.sent ++ d ∧
      ∀ p ∈ d, p.2.data.getLast? = some '\n' ∧
        ('\n' ∉ (trim " h ").data → p.2.data.count '\n' = 1)) ∧
    (∃ d, ({ sampleWorld with sent := [(5, "[Group g] alice: hi\n")] } : World).sent
        = sampleWorld.sent ++ d ∧
      ∀ p ∈ d, p.2.data.getLast? = some '\n' ∧
        ('\n' ∉ (trim "g").data → '\n' ∉ (trim " hi \n").data →
          (∀ u, sampleWorld.clients.find? 4 = some u → '\n' ∉ u.data) →
          p.2.data.count '\n' = 1)) :=
  ⟨by decide, by decide, sent_text_lines.2.1 sampleWorld 6 " h ",
    sent_text_lines.2.2.2.2 sampleWorld _ 4 "g" " hi \n" (by decide)⟩

/-- C18: in every state reached from an empty group registry by a run of create, join,
leave, group-message and disconnect-cleanup steps with arbitrary arguments, every group
name in the registry is non-empty, equals its own trim, and neither begins nor ends with
space, tab, CR or LF; no name occurs twice; and names are compared exactly, so that the
three group functions called with a name never touch the binding of a different name, in
particular of one that differs from it only in letter case. -/
theorem group_names_invariant (w : World) (steps : List Step) (w1 : World)
    (hinit : w.groups = UMap.empty) (hrun : run w steps = some w1) :
    (∀ g ∈ w1.groups.keys, g ≠ "" ∧ trim g = g ∧
      (∀ c, g.data.head? = some c → c ≠ ' ' ∧ c ≠ '\t' ∧ c ≠ '\r' ∧ c ≠ '\n') ∧
      (∀ c, g.data.getLast? = some c → c ≠ ' ' ∧ c ≠ '\t' ∧ c ≠ '\r' ∧ c ≠ '\n')) ∧
    w1.groups.keys.Nodup ∧
    (∀ (h : Int) (name a : String), a ≠ trim name →
      (create_group w1 h name).groups.find? a = w1.groups.find? a ∧
      (join_group w1 h name).groups.find? a = w1.groups.find? a ∧
      (leave_group w1 h name).groups.find? a = w1.groups.find? a) := by
  have hinv : ∀ g ∈ w.groups.keys, g ≠ "" ∧ trim g = g := by
    intro g hg
    rw [hinit] at hg
    simp [UMap.keys, UMap.empty] at hg
  refine ⟨fun g hg => ?_, w1.groups.nodup, fun h name a ha => group_binding_untouched w1 h name a ha⟩
  obtain ⟨hne, ht⟩ := run_keeps_names_trimmed steps w w1 hrun hinv g hg
  exact ⟨hne, ht, trimmed_ends g hne ht⟩

theorem group_names_invariant_witness :
    emptyWorld.groups = UMap.empty ∧
    run emptyWorld [Step.create 1 " g\n", Step.create 2 "G", Step.join 1 " G "]
      = some (join_group (create_group (create_group emptyWorld 1 " g\n") 2 "G") 1 " G ") ∧
    (join_group (create_group (create_group emptyWorld 1 " g\n") 2 "G") 1 " G ").groups.entries.map
        (fun e => (e.1, e.2.elems)) = [("g", [1]), ("G", [2, 1])] ∧
    ((∀ g ∈ (join_group (create_group (create_group emptyWorld 1 " g\n") 2 "G") 1
          " G ").groups.keys, g ≠ "" ∧ trim g = g ∧
        (∀ c, g.data.head? = some c → c ≠ ' ' ∧ c ≠ '\t' ∧ c ≠ '\r' ∧ c ≠ '\n') ∧
        (∀ c, g.data.getLast? = some c → c ≠ ' ' ∧ c ≠ '\t' ∧ c ≠ '\r' ∧ c ≠ '\n'))) :=
  ⟨by decide, by decide, by decide,
    (group_names_invariant emptyWorld
      [Step.create 1 " g\n", Step.create 2 "G", Step.join 1 " G "] _ (by decide)
      (by decide)).1⟩

/-- C19: in the sequential model where a handle is registered after a successful
handshake, issues commands only while registered and runs the cleanup on disconnect, in
every reachable state every member of every group is a registered session; hence
`clients.at(sender_socket)` in `group_message` never throws: `group_message` returns
normally for all arguments, and so does every event of the model. -/
theorem members_are_registered (w : World) (hreach : Reach w) :
    (∀ g s, w.groups.find? g = some s → ∀ x ∈ s.elems, x ∈ w.clients.keys) ∧
    (∀ (h : Int) (name text : String), ∃ w1, group_message w h name text = some w1) ∧
    (∀ e : Event, ∃ w1, fire w e = some w1) := by
  have hinv := membersRegistered_of_reach w hreach
  refine ⟨hinv, fun h name text => group_message_returns w hinv h name text, fun e => ?_⟩
  cases e with
  | login h username => exact ⟨_, rfl⟩
  | command h msg => exact handle_client_command_returns w hinv h _ msg
  | create h name => exact ⟨_, rfl⟩
  | join h name => exact ⟨_, rfl⟩
  | leave h name => exact ⟨_, rfl⟩
  | message h name text => exact group_message_returns w hinv h name text
  | disconnect h => exact ⟨_, rfl⟩

theorem members_are_registered_witness :
    Reach (create_group (handle_client_register emptyWorld 1 "alice") 1 "g") ∧
    (create_group (handle_client_register emptyWorld 1 "alice") 1 "g").groups.entries.map
        (fun e => (e.1, e.2.elems)) = [("g", [1])] ∧
    ∀ (h : Int) (name text : String), ∃ w1,
      group_message (create_group (handle_client_register emptyWorld 1 "alice") 1 "g")
        h name text = some w1 :=
  ⟨Reach.next _ _ (Event.create 1 "g")
      (Reach.next _ _ (Event.login 1 "alice") (Reach.start emptyWorld rfl rfl) rfl rfl)
      (by decide) rfl,
    by decide,
    (members_are_registered _
      (Reach.next _ _ (Event.create 1 "g")
        (Reach.next _ _ (Event.login 1 "alice") (Reach.start emptyWorld rfl rfl) rfl rfl)
        (by decide) rfl)).2.1⟩

/-- C20: for every connection, whatever it receives, the mutex operations of
`handle_client` never acquire `groups_mutex` while `clients_mutex` is held (so where both
are held, `groups_mutex` was acquired first), never acquire a mutex already held, and
release everything they acquire; and for any number of connection threads and any
interleaving of their mutex operations, the threads are never deadlocked: as long as some
thread has operations left, some thread can do its next operation, and no two threads wait
for a mutex held by each other (nor a thread for one it holds itself). -/
theorem lock_order_no_deadlock (users : UMap String String) :
    (∀ (inputs : List Recv) (pre post : List LockOp),
      handle_client_locks users inputs = pre ++ LockOp.acquire Mutex.groups_mutex :: post →
      Mutex.clients_mutex ∉ heldAfter [] pre) ∧
    (∀ inputs : List Recv, lockOrderOk [] (handle_client_locks users inputs) = true) ∧
    (∀ (connections : List (List Recv)) (schedule : List Nat) (threads : List Thread),
      runSchedule (startThreads users connections) schedule = some threads →
      deadlocked threads = false ∧
      ∀ t1 ∈ threads, ∀ t2 ∈ threads, (waitsFor t1 t2 && waitsFor t2 t1) = false) := by
  refine ⟨?_, lockOrderOk_handle_client users, ?_⟩
  · intro inputs pre post htrace
    have hok := lockOrderOk_handle_client users inputs
    rw [htrace] at hok
    exact not_held_at_acquire_groups pre post [] hok
  · intro connections schedule threads hrun
    have hinv := runSchedule_keeps_ok schedule _ threads (startThreads_ok users connections) hrun
    exact ⟨not_deadlocked_of_ok threads hinv,
      fun t1 ht1 t2 ht2 => no_mutual_wait t1 t2 (hinv t1 ht1) (hinv t2 ht2)⟩

theorem lock_order_no_deadlock_witness :
    handle_client_locks sampleWorld.users [⟨6, "alice\n"⟩, ⟨4, "pw1\n"⟩, ⟨15, "/group_msg g hi"⟩]
      = [LockOp.acquire Mutex.clients_mutex, LockOp.release Mutex.clients_mutex,
          LockOp.acquire Mutex.clients_mutex, LockOp.release Mutex.clients_mutex]
        ++ LockOp.acquire Mutex.groups_mutex ::
          [LockOp.acquire Mutex.clients_mutex, LockOp.release Mutex.clients_mutex,
            LockOp.release Mutex.groups_mutex] ∧
    Mutex.clients_mutex ∉ heldAfter []
      [LockOp.acquire Mutex.clients_mutex, LockOp.release Mutex.clients_mutex,
        LockOp.acquire Mutex.clients_mutex, LockOp.release Mutex.clients_mutex] ∧
    runSchedule
        (startThreads sampleWorld.users
          [[⟨6, "alice\n"⟩, ⟨4, "pw1\n"⟩, ⟨15, "/group_msg g hi"⟩],
           [⟨4, "bob\n"⟩, ⟨4, "pw2\n"⟩, ⟨13, "/join_group g"⟩]])
        [0, 0, 1, 1, 0, 0, 0, 1, 1, 0]
      = some ((runSchedule
        (startThreads sampleWorld.users
          [[⟨6, "alice\n"⟩, ⟨4, "pw1\n"⟩, ⟨15, "/group_msg g hi"⟩],
           [⟨4, "bob\n"⟩, ⟨4, "pw2\n"⟩, ⟨13, "/join_group g"⟩]])
        [0, 0, 1, 1, 0, 0, 0, 1, 1, 0]).getD []) ∧
    deadlocked ((runSchedule
        (startThreads sampleWorld.users
          [[⟨6, "alice\n"⟩, ⟨4, "pw1\n"⟩, ⟨15, "/group_msg g hi"⟩],
           [⟨4, "bob\n"⟩, ⟨4, "pw2\n"⟩, ⟨13, "/join_group g"⟩]])
        [0, 0, 1, 1, 0, 0, 0, 1, 1, 0]).getD []) = false :=
  ⟨by decide,
    (lock_order_no_deadlock sampleWorld.users).1
      [⟨6, "alice\n"⟩, ⟨4, "pw1\n"⟩, ⟨15, "/group_msg g hi"⟩]
      [LockOp.acquire Mutex.clients_mutex, LockOp.release Mutex.clients_mutex,
        LockOp.acquire Mutex.clients_mutex, LockOp.release Mutex.clients_mutex]
      [LockOp.acquire Mutex.clients_mutex, LockOp.release Mutex.clients_mutex,
        LockOp.release Mutex.groups_mutex] (by decide),
    by decide,
    ((lock_order_no_deadlock sampleWorld.users).2.2
      [[⟨6, "alice\n"⟩, ⟨4, "pw1\n"⟩, ⟨15, "/group_msg g hi"⟩],
       [⟨4, "bob\n"⟩, ⟨4, "pw2\n"⟩, ⟨13, "/join_group g"⟩]]
      [0, 0, 1, 1, 0, 0, 0, 1, 1, 0] _ (by decide)).1⟩

end ChatServer
